import Mathlib

/-!
Particle box simulation: a shallow embedding of `particle.c` and of the box
state machine of `main.c`.

The C program computes with `float`.  Here every `float` is an element of a
linearly ordered field `α`, and the three libm functions the code calls
(`cos`, `sin`, `sqrt`) as well as the constant `M_PI` are parameters of the
definitions that use them.  The definitions are therefore executable over `ℚ`
and the theorems instantiate them over `ℝ` with `Real.cos`, `Real.sin`,
`Real.sqrt` and `Real.pi`: rounding is not modelled.

A division whose divisor is a run-time value goes through `fdiv`, which
reports a zero divisor instead of returning a number: a field has no element
that stands for the non-finite result of IEEE division by zero.
-/

namespace ParticleSim

/-! ## Constants of `particle.h` and `main.c` -/

/-- The constant `GRAVITY` (`#define GRAVITY 20.0f`). -/
def GRAVITY {α : Type} [LinearOrderedField α] : α := 20

/-- The constant `BOUNCE_DAMPENING` (`#define BOUNCE_DAMPENING 0.7f`). -/
def BOUNCE_DAMPENING {α : Type} [LinearOrderedField α] : α := 7 / 10

/-- The constant `ROTATION_SPEED` (`#define ROTATION_SPEED 0.5f`), radians per second. -/
def ROTATION_SPEED {α : Type} [LinearOrderedField α] : α := 1 / 2

/-- The constant `SETTLED_VELOCITY_THRESHOLD` (`1.0f`). -/
def SETTLED_VELOCITY_THRESHOLD {α : Type} [LinearOrderedField α] : α := 1

/-- The constant `SETTLED_CHECK_TIME` (`1.0f`), seconds. -/
def SETTLED_CHECK_TIME {α : Type} [LinearOrderedField α] : α := 1

/-! ## Data model (`particle.h`) -/

/-- The struct `Particle`: `float x, y; float vx, vy; float radius;`. -/
structure Particle (α : Type) where
  x : α
  y : α
  vx : α
  vy : α
  radius : α
deriving DecidableEq, Repr

/-- The struct `BoxState`: `float angle; float targetAngle; bool isRotating;
float timeSinceLastMove;`. -/
structure BoxState (α : Type) where
  angle : α
  targetAngle : α
  isRotating : Bool
  timeSinceLastMove : α
deriving DecidableEq, Repr

/-- What a run of `update_particles` can hit that a field value cannot
express: an access outside the particle array, or a division by zero. -/
inductive Fault where
  | outOfRange
  | zeroDivisor
deriving DecidableEq, Repr

/-- Division by a run-time value (`a / b` in C): a zero divisor is reported. -/
def fdiv {α : Type} [LinearOrderedField α] (a b : α) : Except Fault α :=
  if b = 0 then Except.error Fault.zeroDivisor else Except.ok (a / b)

/-- Read of `particles[i]`. -/
def readAt {α : Type} (particles : List (Particle α)) (i : Nat) : Except Fault (Particle α) :=
  match particles[i]? with
  | some p => Except.ok p
  | none => Except.error Fault.outOfRange

/-! ## Frame transforms (`particle.c`, lines 5-39)

The C functions mutate `*x` and `*y`; the embedding returns the new pair. -/

/-- The function `transform_to_box_space` (lines 5-18). -/
def transform_to_box_space {α : Type} [LinearOrderedField α] (cos sin : α → α)
    (x y centerX centerY angle : α) : α × α :=
  let x := x - centerX
  let y := y - centerY
  let c := cos (-angle)
  let s := sin (-angle)
  let newX := x * c - y * s
  let newY := x * s + y * c
  (newX, newY)

/-- The function `transform_from_box_space` (lines 20-30). -/
def transform_from_box_space {α : Type} [LinearOrderedField α] (cos sin : α → α)
    (x y centerX centerY angle : α) : α × α :=
  let c := cos angle
  let s := sin angle
  let newX := x * c - y * s
  let newY := x * s + y * c
  (newX + centerX, newY + centerY)

/-- The function `rotate_vector` (lines 32-39). -/
def rotate_vector {α : Type} [LinearOrderedField α] (cos sin : α → α)
    (vx vy angle : α) : α × α :=
  let c := cos angle
  let s := sin angle
  let newVx := vx * c - vy * s
  let newVy := vx * s + vy * c
  (newVx, newVy)

/-! ## `update_particles` (`particle.c`, lines 41-147) -/

/-- Lines 44-46: `halfBoxSize`. `width` and `height` are C `int`s. -/
def halfBoxSize {α : Type} [LinearOrderedField α] (sqrt : α → α) (width height : Int) : α :=
  let minDimension : α := if width < height then (width : α) else (height : α)
  let boxSize := (minDimension - 40) / sqrt 2
  boxSize / 2

/-- Lines 53-67 for one particle: gravity, transform of position and velocity
into the box frame, integration. Returns the local `(x, y, vx, vy)`. -/
def integrate_local {α : Type} [LinearOrderedField α] (cos sin : α → α)
    (p : Particle α) (dt : α) (width height : Int) (angle : α) : α × α × α × α :=
  let centerX : α := (width : α) / 2
  let centerY : α := (height : α) / 2
  let gx : α := 0
  let gy : α := GRAVITY
  let pvx := p.vx + gx * dt
  let pvy := p.vy + gy * dt
  let xy := transform_to_box_space cos sin p.x p.y centerX centerY angle
  let v := rotate_vector cos sin pvx pvy (-angle)
  let x := xy.1 + v.1 * dt
  let y := xy.2 + v.2 * dt
  (x, y, v.1, v.2)

/-- Lines 69-85: the four boundary tests, in source order, on the local
`(x, y, vx, vy)`. -/
def boundary_collisions {α : Type} [LinearOrderedField α] (halfBox : α)
    (x y vx vy : α) : α × α × α × α :=
  let xv := if x < -halfBox then (-halfBox, -vx * BOUNCE_DAMPENING) else (x, vx)
  let xv := if xv.1 > halfBox then (halfBox, -xv.2 * BOUNCE_DAMPENING) else xv
  let yv := if y < -halfBox then (-halfBox, -vy * BOUNCE_DAMPENING) else (y, vy)
  let yv := if yv.1 > halfBox then (halfBox, -yv.2 * BOUNCE_DAMPENING) else yv
  (xv.1, yv.1, xv.2, yv.2)

/-- Lines 53-101 for one particle: the value committed to `particles[i]`.
The `printf` diagnostic of lines 92-95 changes no state and is left out. -/
def step_particle {α : Type} [LinearOrderedField α] (cos sin sqrt : α → α)
    (p : Particle α) (dt : α) (width height : Int) (angle : α) : Particle α :=
  let centerX : α := (width : α) / 2
  let centerY : α := (height : α) / 2
  let loc := integrate_local cos sin p dt width height angle
  let b := boundary_collisions (halfBoxSize sqrt width height) loc.1 loc.2.1 loc.2.2.1 loc.2.2.2
  let v := rotate_vector cos sin b.2.2.1 b.2.2.2 angle
  let xy := transform_from_box_space cos sin b.1 b.2.1 centerX centerY angle
  { x := xy.1, y := xy.2, vx := v.1, vy := v.2, radius := p.radius }

/-- Line 118: the relative velocity of `pj` with respect to `pi` projected on
the normal `(nx, ny)`. -/
def velAlongNormal {α : Type} [LinearOrderedField α] (pi pj : Particle α) (nx ny : α) : α :=
  let rvx := pj.vx - pi.vx
  let rvy := pj.vy - pi.vy
  rvx * nx + rvy * ny

/-- Lines 105-144: the body of the inner loop for the pair
`(particles[i], particles[j])`; returns the new values of both. -/
def collide_pair {α : Type} [LinearOrderedField α] (sqrt : α → α)
    (pi pj : Particle α) : Except Fault (Particle α × Particle α) :=
  let dx := pj.x - pi.x
  let dy := pj.y - pi.y
  let distance := dx * dx + dy * dy
  let minDistance := (pi.radius + pj.radius) * (pi.radius + pj.radius)
  if distance < minDistance then do
    let dist := sqrt distance
    let nx ← fdiv dx dist
    let ny ← fdiv dy dist
    let van := velAlongNormal pi pj nx ny
    if van > 0 then
      pure (pi, pj)
    else do
      let impulse := -(1 + BOUNCE_DAMPENING) * van
      let impulse := impulse / 2
      let impulsex := impulse * nx
      let impulsey := impulse * ny
      let percent : α := 2 / 10
      let slop : α := 1 / 100
      let q ← fdiv (dist - sqrt minDistance + slop) dist
      let correction := q * percent
      let correctionX := correction * nx
      let correctionY := correction * ny
      pure ({ pi with x := pi.x + correctionX, y := pi.y + correctionY,
                      vx := pi.vx - impulsex, vy := pi.vy - impulsey },
            { pj with x := pj.x - correctionX, y := pj.y - correctionY,
                      vx := pj.vx + impulsex, vy := pj.vy + impulsey })
  else
    pure (pi, pj)

/-- One iteration of the inner loop (line 104) at index `j`. -/
def inner_body {α : Type} [LinearOrderedField α] (sqrt : α → α) (i : Nat)
    (particles : List (Particle α)) (j : Nat) : Except Fault (List (Particle α)) := do
  let pi ← readAt particles i
  let pj ← readAt particles j
  let r ← collide_pair sqrt pi pj
  pure ((particles.set i r.1).set j r.2)

/-- One iteration of the outer loop (line 52) at index `i`. -/
def outer_body {α : Type} [LinearOrderedField α] (cos sin sqrt : α → α)
    (num_particles : Nat) (dt : α) (width height : Int) (box : BoxState α)
    (particles : List (Particle α)) (i : Nat) : Except Fault (List (Particle α)) := do
  let p ← readAt particles i
  let particles := particles.set i (step_particle cos sin sqrt p dt width height box.angle)
  (List.range' (i + 1) (num_particles - (i + 1))).foldlM (inner_body sqrt i) particles

/-- The function `update_particles` (lines 41-147). The array is a list,
mutated in place by `List.set`; `box` is only read. `num_particles` is a C
`int`: a negative value runs no iteration, like 0. -/
def update_particles {α : Type} [LinearOrderedField α] (cos sin sqrt : α → α)
    (particles : List (Particle α)) (num_particles : Nat) (dt : α)
    (width height : Int) (box : BoxState α) : Except Fault (List (Particle α)) :=
  (List.range num_particles).foldlM
    (outer_body cos sin sqrt num_particles dt width height box) particles

/-- The array after the first `k` iterations of the outer loop (line 52) of
`update_particles`. -/
def update_prefix {α : Type} [LinearOrderedField α] (cos sin sqrt : α → α)
    (particles : List (Particle α)) (num_particles : Nat) (dt : α)
    (width height : Int) (box : BoxState α) (k : Nat) : Except Fault (List (Particle α)) :=
  (List.range k).foldlM
    (outer_body cos sin sqrt num_particles dt width height box) particles

/-- Box-local position of a particle: `transform_to_box_space` with center
`(width / 2, height / 2)` and the box angle. -/
def local_position {α : Type} [LinearOrderedField α] (cos sin : α → α)
    (p : Particle α) (width height : Int) (angle : α) : α × α :=
  transform_to_box_space cos sin p.x p.y ((width : α) / 2) ((height : α) / 2) angle

/-! Quantities of lines 105-114, named so that statements can refer to them.
They use the field's total division and are only meaningful when the center
distance is not zero. -/

/-- Line 107: `distance`, the squared distance of the centers. -/
def centerDistSq {α : Type} [LinearOrderedField α] (pi pj : Particle α) : α :=
  (pj.x - pi.x) * (pj.x - pi.x) + (pj.y - pi.y) * (pj.y - pi.y)

/-- Lines 108-109: `minDistance`, the squared sum of the radii. -/
def minDistSq {α : Type} [LinearOrderedField α] (pi pj : Particle α) : α :=
  (pi.radius + pj.radius) * (pi.radius + pj.radius)

/-- Line 112: `dist`, the distance of the centers. -/
def centerDist {α : Type} [LinearOrderedField α] (sqrt : α → α) (pi pj : Particle α) : α :=
  sqrt (centerDistSq pi pj)

/-- Lines 113-114: the collision normal `(nx, ny)`, from `pi` towards `pj`. -/
def collisionNormal {α : Type} [LinearOrderedField α] (sqrt : α → α)
    (pi pj : Particle α) : α × α :=
  ((pj.x - pi.x) / centerDist sqrt pi pj, (pj.y - pi.y) / centerDist sqrt pi pj)

/-- Lines 116-118: `velAlongNormal` of the pair, on its own collision normal. -/
def normalVelocity {α : Type} [LinearOrderedField α] (sqrt : α → α)
    (pi pj : Particle α) : α :=
  velAlongNormal pi pj (collisionNormal sqrt pi pj).1 (collisionNormal sqrt pi pj).2

/-- The inner loop body changes nothing for the pair: the overlap test of
line 111 fails, or the centers are distinct and the `continue` of line 120 is
taken. -/
def pairUnhandled {α : Type} [LinearOrderedField α] (sqrt : α → α)
    (pi pj : Particle α) : Prop :=
  minDistSq pi pj ≤ centerDistSq pi pj
    ∨ ((pi.x ≠ pj.x ∨ pi.y ≠ pj.y) ∧ 0 < normalVelocity sqrt pi pj)

/-- Both local coordinates lie within `[-halfBox, halfBox]`. -/
def inBox {α : Type} [LinearOrderedField α] (halfBox : α) (q : α × α) : Prop :=
  -halfBox ≤ q.1 ∧ q.1 ≤ halfBox ∧ -halfBox ≤ q.2 ∧ q.2 ≤ halfBox

/-! ## Box state machine (`main.c`, lines 199-227) -/

/-- Lines 200-209: the settle check, a loop with `break`. Returns
`allSettled` and the box. -/
def settle_check {α : Type} [LinearOrderedField α] (sqrt : α → α) :
    List (Particle α) → BoxState α → Bool × BoxState α
  | [], box => (true, box)
  | p :: rest, box =>
    let vel := sqrt (p.vx * p.vx + p.vy * p.vy)
    if vel > SETTLED_VELOCITY_THRESHOLD then
      (false, { box with timeSinceLastMove := 0 })
    else
      settle_check sqrt rest box

/-- Lines 211-218: timer accumulation and rotation start. `pi` is `M_PI`. -/
def settle_timer {α : Type} [LinearOrderedField α] (pi : α) (allSettled : Bool)
    (deltaTime : α) (box : BoxState α) : BoxState α :=
  if allSettled then
    let box := { box with timeSinceLastMove := box.timeSinceLastMove + deltaTime }
    if box.timeSinceLastMove ≥ SETTLED_CHECK_TIME ∧ box.isRotating = false then
      { box with isRotating := true, targetAngle := box.angle + pi }
    else box
  else box

/-- Lines 220-227: the rotation stepper. -/
def rotation_step {α : Type} [LinearOrderedField α] (deltaTime : α)
    (box : BoxState α) : BoxState α :=
  if box.isRotating then
    let box := { box with angle := box.angle + ROTATION_SPEED * deltaTime }
    if box.angle ≥ box.targetAngle then
      { box with angle := box.targetAngle, isRotating := false, timeSinceLastMove := 0 }
    else box
  else box

/-- Lines 199-227 for one frame: the particles the frame sees and its
`deltaTime`. -/
def box_frame {α : Type} [LinearOrderedField α] (sqrt : α → α) (pi : α)
    (box : BoxState α) (frame : List (Particle α) × α) : BoxState α :=
  let r := settle_check sqrt frame.1 box
  let box := settle_timer pi r.1 frame.2 r.2
  rotation_step frame.2 box

/-- A run of frames, first frame first. -/
def box_run {α : Type} [LinearOrderedField α] (sqrt : α → α) (pi : α)
    (box : BoxState α) (frames : List (List (Particle α) × α)) : BoxState α :=
  frames.foldl (box_frame sqrt pi) box

/-- Sum of the frame times of a run. -/
def elapsed {α : Type} [LinearOrderedField α] (frames : List (List (Particle α) × α)) : α :=
  (frames.map (fun f => f.2)).sum

/-! ## Theorems -/

/-- C1: over the reals, `transform_from_box_space` undoes
`transform_to_box_space` for the same center and angle. -/
theorem transform_round_trip (x y centerX centerY angle : ℝ) :
    transform_from_box_space Real.cos Real.sin
      (transform_to_box_space Real.cos Real.sin x y centerX centerY angle).1
      (transform_to_box_space Real.cos Real.sin x y centerX centerY angle).2
      centerX centerY angle = (x, y) := by
  simp only [transform_from_box_space, transform_to_box_space, Real.cos_neg, Real.sin_neg,
    Prod.mk.injEq]
  have h := Real.cos_sq_add_sin_sq angle
  constructor
  · linear_combination (x - centerX) * h
  · linear_combination (y - centerY) * h

/-! ### The pair handler over the reals -/

theorem centerDistSq_nonneg (pi pj : Particle ℝ) : 0 ≤ centerDistSq pi pj := by
  unfold centerDistSq
  nlinarith [mul_self_nonneg (pj.x - pi.x), mul_self_nonneg (pj.y - pi.y)]

theorem centerDistSq_pos (pi pj : Particle ℝ) (hne : pi.x ≠ pj.x ∨ pi.y ≠ pj.y) :
    0 < centerDistSq pi pj := by
  unfold centerDistSq
  rcases hne with h | h
  · have h1 : pj.x - pi.x ≠ 0 := fun e => h (by linarith)
    nlinarith [mul_self_pos.mpr h1, mul_self_nonneg (pj.y - pi.y)]
  · have h1 : pj.y - pi.y ≠ 0 := fun e => h (by linarith)
    nlinarith [mul_self_pos.mpr h1, mul_self_nonneg (pj.x - pi.x)]

theorem centerDist_pos (pi pj : Particle ℝ) (hne : pi.x ≠ pj.x ∨ pi.y ≠ pj.y) :
    0 < centerDist Real.sqrt pi pj :=
  Real.sqrt_pos.mpr (centerDistSq_pos pi pj hne)

theorem centerDist_sq (pi pj : Particle ℝ) :
    centerDist Real.sqrt pi pj * centerDist Real.sqrt pi pj = centerDistSq pi pj :=
  Real.mul_self_sqrt (centerDistSq_nonneg pi pj)

/-- The collision normal of a pair with distinct centers is a unit vector. -/
theorem collisionNormal_unit (pi pj : Particle ℝ) (hne : pi.x ≠ pj.x ∨ pi.y ≠ pj.y) :
    (collisionNormal Real.sqrt pi pj).1 * (collisionNormal Real.sqrt pi pj).1
      + (collisionNormal Real.sqrt pi pj).2 * (collisionNormal Real.sqrt pi pj).2 = 1 := by
  have hd := centerDist_pos pi pj hne
  have hsq := centerDist_sq pi pj
  simp only [collisionNormal]
  field_simp
  rw [hsq]
  unfold centerDistSq
  ring

/-- The pair handler on a separating overlapping pair: `continue`. -/
theorem collide_pair_separating (pi pj : Particle ℝ)
    (hov : centerDistSq pi pj < minDistSq pi pj)
    (hne : pi.x ≠ pj.x ∨ pi.y ≠ pj.y)
    (hsep : 0 < normalVelocity Real.sqrt pi pj) :
    collide_pair Real.sqrt pi pj = Except.ok (pi, pj) := by
  have hd : Real.sqrt ((pj.x - pi.x) * (pj.x - pi.x) + (pj.y - pi.y) * (pj.y - pi.y)) ≠ 0 :=
    ne_of_gt (centerDist_pos pi pj hne)
  simp only [centerDistSq, minDistSq] at hov
  simp only [normalVelocity, collisionNormal, centerDist, centerDistSq] at hsep
  unfold collide_pair
  simp only [hov, if_true, fdiv, hd, if_false]
  simp only [bind, Except.bind, pure, Except.pure, gt_iff_lt, hsep, if_true]

/-- The pair handler on an overlapping pair that is not separating: impulse
and positional correction, written with the named quantities. -/
theorem collide_pair_resolving (pi pj : Particle ℝ)
    (hov : centerDistSq pi pj < minDistSq pi pj)
    (hne : pi.x ≠ pj.x ∨ pi.y ≠ pj.y)
    (happ : normalVelocity Real.sqrt pi pj ≤ 0)
    (nx ny imp c : ℝ)
    (hnx : nx = (collisionNormal Real.sqrt pi pj).1)
    (hny : ny = (collisionNormal Real.sqrt pi pj).2)
    (himp : imp = -(1 + 7 / 10) * normalVelocity Real.sqrt pi pj / 2)
    (hc : c = (centerDist Real.sqrt pi pj - Real.sqrt (minDistSq pi pj) + 1 / 100)
      / centerDist Real.sqrt pi pj * (2 / 10)) :
    collide_pair Real.sqrt pi pj = Except.ok
      ({ x := pi.x + c * nx, y := pi.y + c * ny, vx := pi.vx - imp * nx,
         vy := pi.vy - imp * ny, radius := pi.radius },
       { x := pj.x - c * nx, y := pj.y - c * ny, vx := pj.vx + imp * nx,
         vy := pj.vy + imp * ny, radius := pj.radius }) := by
  have hd : Real.sqrt ((pj.x - pi.x) * (pj.x - pi.x) + (pj.y - pi.y) * (pj.y - pi.y)) ≠ 0 :=
    ne_of_gt (centerDist_pos pi pj hne)
  subst hnx hny himp hc
  simp only [centerDistSq, minDistSq] at hov
  simp only [normalVelocity, collisionNormal, centerDist, centerDistSq] at happ
  have happ' := not_lt.mpr happ
  unfold collide_pair
  simp only [hov, if_true, fdiv, hd, if_false]
  simp only [bind, Except.bind, pure, Except.pure, gt_iff_lt, happ', if_false]
  simp only [normalVelocity, collisionNormal, centerDist, centerDistSq, minDistSq,
    BOUNCE_DAMPENING]

/-- One inner iteration on a pair the handler resolves: both entries are
written back. -/
theorem inner_body_ok {α : Type} [LinearOrderedField α] (sqrt : α → α)
    (particles : List (Particle α)) (i j : Nat) (pi pj qi qj : Particle α)
    (hij : i < j) (hi : particles[i]? = some pi) (hj : particles[j]? = some pj)
    (hpair : collide_pair sqrt pi pj = Except.ok (qi, qj)) :
    inner_body sqrt i particles j = Except.ok ((particles.set i qi).set j qj)
      ∧ ((particles.set i qi).set j qj)[i]? = some qi
      ∧ ((particles.set i qi).set j qj)[j]? = some qj := by
  have hjl : j < particles.length := by
    rcases List.getElem?_eq_some_iff.mp hj with ⟨h, _⟩
    exact h
  have hil : i < particles.length := lt_trans hij hjl
  refine ⟨?_, ?_, ?_⟩
  · simp only [inner_body, readAt, hi, hj, hpair, bind, Except.bind, pure, Except.pure]
  · rw [List.getElem?_set_ne (ne_of_gt hij), List.getElem?_set_self hil]
  · rw [List.getElem?_set_self (by simpa using hjl)]

/-- C3: an overlapping pair with distinct centers whose relative velocity
along the collision normal is non-negative (zero included) keeps the
velocities of both particles when the inner loop handles it. -/
theorem separating_pair_velocities_unchanged (particles : List (Particle ℝ)) (i j : Nat)
    (pi pj : Particle ℝ) (hij : i < j)
    (hi : particles[i]? = some pi) (hj : particles[j]? = some pj)
    (hov : centerDistSq pi pj < minDistSq pi pj)
    (hne : pi.x ≠ pj.x ∨ pi.y ≠ pj.y)
    (hsep : 0 ≤ normalVelocity Real.sqrt pi pj) :
    ∃ ps qi qj, inner_body Real.sqrt i particles j = Except.ok ps
      ∧ ps[i]? = some qi ∧ ps[j]? = some qj
      ∧ qi.vx = pi.vx ∧ qi.vy = pi.vy ∧ qj.vx = pj.vx ∧ qj.vy = pj.vy := by
  rcases lt_or_eq_of_le hsep with hpos | hzero
  · have h := inner_body_ok Real.sqrt particles i j pi pj pi pj hij hi hj
      (collide_pair_separating pi pj hov hne hpos)
    exact ⟨_, pi, pj, h.1, h.2.1, h.2.2, rfl, rfl, rfl, rfl⟩
  · have hp := collide_pair_resolving pi pj hov hne (le_of_eq hzero.symm) _ _ _ _ rfl rfl rfl rfl
    have h := inner_body_ok Real.sqrt particles i j pi pj _ _ hij hi hj hp
    refine ⟨_, _, _, h.1, h.2.1, h.2.2, ?_, ?_, ?_, ?_⟩ <;> simp [← hzero]

/-- Witness of C3: particles at `(0,0)` and `(6,0)`, radius 5, the second one
moving away at speed 1. -/
theorem separating_pair_velocities_unchanged_witness :
    ∃ ps qi qj, inner_body Real.sqrt 0
        [(⟨0, 0, 0, 0, 5⟩ : Particle ℝ), ⟨6, 0, 1, 0, 5⟩] 1 = Except.ok ps
      ∧ ps[0]? = some qi ∧ ps[1]? = some qj
      ∧ qi.vx = 0 ∧ qi.vy = 0 ∧ qj.vx = 1 ∧ qj.vy = 0 :=
  separating_pair_velocities_unchanged [⟨0, 0, 0, 0, 5⟩, ⟨6, 0, 1, 0, 5⟩] 0 1
    ⟨0, 0, 0, 0, 5⟩ ⟨6, 0, 1, 0, 5⟩ (by decide) rfl rfl
    (by norm_num [centerDistSq, minDistSq])
    (Or.inl (by norm_num))
    (by
      simp only [normalVelocity, velAlongNormal, collisionNormal, centerDist, centerDistSq]
      have : (0 : ℝ) ≤ Real.sqrt ((6 - 0) * (6 - 0) + (0 - 0) * (0 - 0)) := Real.sqrt_nonneg _
      norm_num
      positivity)

/-- C6: for an overlapping pair with distinct centers that is approaching
(`velAlongNormal ≤ 0`), after the inner loop has handled it the relative
velocity of `j` with respect to `i` along the same normal is `-0.7` times
what it was. -/
theorem impulse_restitution (particles : List (Particle ℝ)) (i j : Nat)
    (pi pj : Particle ℝ) (hij : i < j)
    (hi : particles[i]? = some pi) (hj : particles[j]? = some pj)
    (hov : centerDistSq pi pj < minDistSq pi pj)
    (hne : pi.x ≠ pj.x ∨ pi.y ≠ pj.y)
    (happ : normalVelocity Real.sqrt pi pj ≤ 0) :
    ∃ ps qi qj, inner_body Real.sqrt i particles j = Except.ok ps
      ∧ ps[i]? = some qi ∧ ps[j]? = some qj
      ∧ velAlongNormal qi qj (collisionNormal Real.sqrt pi pj).1
          (collisionNormal Real.sqrt pi pj).2
        = -(7 / 10) * normalVelocity Real.sqrt pi pj := by
  have hp := collide_pair_resolving pi pj hov hne happ _ _ _ _ rfl rfl rfl rfl
  have h := inner_body_ok Real.sqrt particles i j pi pj _ _ hij hi hj hp
  refine ⟨_, _, _, h.1, h.2.1, h.2.2, ?_⟩
  have hu := collisionNormal_unit pi pj hne
  simp only [normalVelocity, velAlongNormal] at *
  generalize (collisionNormal Real.sqrt pi pj).1 = nx at *
  generalize (collisionNormal Real.sqrt pi pj).2 = ny at *
  linear_combination (-(17 / 10) * ((pj.vx - pi.vx) * nx + (pj.vy - pi.vy) * ny)) * hu

/-- Witness of C6: particles at `(0,0)` and `(6,0)`, radius 5, the second one
moving towards the first at speed 1. -/
theorem impulse_restitution_witness :
    ∃ ps qi qj, inner_body Real.sqrt 0
        [(⟨0, 0, 0, 0, 5⟩ : Particle ℝ), ⟨6, 0, -1, 0, 5⟩] 1 = Except.ok ps
      ∧ ps[0]? = some qi ∧ ps[1]? = some qj
      ∧ velAlongNormal qi qj
          (collisionNormal Real.sqrt ⟨0, 0, 0, 0, 5⟩ ⟨6, 0, -1, 0, 5⟩).1
          (collisionNormal Real.sqrt ⟨0, 0, 0, 0, 5⟩ ⟨6, 0, -1, 0, 5⟩).2
        = -(7 / 10) * normalVelocity Real.sqrt ⟨0, 0, 0, 0, 5⟩ ⟨6, 0, -1, 0, 5⟩ :=
  impulse_restitution [⟨0, 0, 0, 0, 5⟩, ⟨6, 0, -1, 0, 5⟩] 0 1
    ⟨0, 0, 0, 0, 5⟩ ⟨6, 0, -1, 0, 5⟩ (by decide) rfl rfl
    (by norm_num [centerDistSq, minDistSq])
    (Or.inl (by norm_num))
    (by
      simp only [normalVelocity, velAlongNormal, collisionNormal, centerDist, centerDistSq]
      have : (0 : ℝ) ≤ Real.sqrt ((6 - 0) * (6 - 0) + (0 - 0) * (0 - 0)) := Real.sqrt_nonneg _
      norm_num
      positivity)

/-- C4, amended: for an overlapping pair with distinct centers that is not
separating (`velAlongNormal ≤ 0`) and overlaps by more than the slop
(`dist + 0.01 < sqrt minDistance`), the distance of the centers after the
inner loop has handled the pair is strictly greater than before. -/
theorem correction_increases_distance (particles : List (Particle ℝ)) (i j : Nat)
    (pi pj : Particle ℝ) (hij : i < j)
    (hi : particles[i]? = some pi) (hj : particles[j]? = some pj)
    (hov : centerDistSq pi pj < minDistSq pi pj)
    (hne : pi.x ≠ pj.x ∨ pi.y ≠ pj.y)
    (happ : normalVelocity Real.sqrt pi pj ≤ 0)
    (hdeep : centerDist Real.sqrt pi pj + 1 / 100 < Real.sqrt (minDistSq pi pj)) :
    ∃ ps qi qj, inner_body Real.sqrt i particles j = Except.ok ps
      ∧ ps[i]? = some qi ∧ ps[j]? = some qj
      ∧ centerDist Real.sqrt pi pj < centerDist Real.sqrt qi qj := by
  have hp := collide_pair_resolving pi pj hov hne happ _ _ _ _ rfl rfl rfl rfl
  have h := inner_body_ok Real.sqrt particles i j pi pj _ _ hij hi hj hp
  refine ⟨_, _, _, h.1, h.2.1, h.2.2, ?_⟩
  have hd := centerDist_pos pi pj hne
  have hsq := centerDist_sq pi pj
  have hpos := centerDistSq_pos pi pj hne
  set d := centerDist Real.sqrt pi pj with hd_def
  set r := Real.sqrt (minDistSq pi pj) with hr_def
  -- the correction is negative: the particles are pushed apart
  have hc : (d - r + 1 / 100) / d * (2 / 10) < 0 := by
    have : (d - r + 1 / 100) / d < 0 := div_neg_of_neg_of_pos (by linarith) hd
    linarith
  set c := (d - r + 1 / 100) / d * (2 / 10) with hc_def
  have hk : 1 < 1 - 2 * c / d := by
    have : 2 * c / d < 0 := div_neg_of_neg_of_pos (by linarith) hd
    linarith
  -- the new squared distance is the old one scaled by `(1 - 2 c / d)^2`
  have hnew : centerDistSq
      ({ x := pi.x + c * (collisionNormal Real.sqrt pi pj).1,
         y := pi.y + c * (collisionNormal Real.sqrt pi pj).2,
         vx := pi.vx - -(1 + 7 / 10) * normalVelocity Real.sqrt pi pj / 2
            * (collisionNormal Real.sqrt pi pj).1,
         vy := pi.vy - -(1 + 7 / 10) * normalVelocity Real.sqrt pi pj / 2
            * (collisionNormal Real.sqrt pi pj).2,
         radius := pi.radius } : Particle ℝ)
      ({ x := pj.x - c * (collisionNormal Real.sqrt pi pj).1,
         y := pj.y - c * (collisionNormal Real.sqrt pi pj).2,
         vx := pj.vx + -(1 + 7 / 10) * normalVelocity Real.sqrt pi pj / 2
            * (collisionNormal Real.sqrt pi pj).1,
         vy := pj.vy + -(1 + 7 / 10) * normalVelocity Real.sqrt pi pj / 2
            * (collisionNormal Real.sqrt pi pj).2,
         radius := pj.radius } : Particle ℝ)
      = (1 - 2 * c / d) * (1 - 2 * c / d) * centerDistSq pi pj := by
    simp only [centerDistSq, collisionNormal, ← hd_def]
    field_simp
    ring
  have hlt : centerDistSq pi pj < (1 - 2 * c / d) * (1 - 2 * c / d) * centerDistSq pi pj := by
    have : 1 < (1 - 2 * c / d) * (1 - 2 * c / d) := by nlinarith
    nlinarith
  show Real.sqrt (centerDistSq pi pj) < Real.sqrt _
  rw [hnew]
  exact Real.sqrt_lt_sqrt (le_of_lt hpos) hlt

/-- Witness of C4 (amended): particles at `(0,0)` and `(6,0)`, radius 5, at
rest: overlap depth 4. -/
theorem correction_increases_distance_witness :
    ∃ ps qi qj, inner_body Real.sqrt 0
        [(⟨0, 0, 0, 0, 5⟩ : Particle ℝ), ⟨6, 0, 0, 0, 5⟩] 1 = Except.ok ps
      ∧ ps[0]? = some qi ∧ ps[1]? = some qj
      ∧ centerDist Real.sqrt ⟨0, 0, 0, 0, 5⟩ ⟨6, 0, 0, 0, 5⟩ < centerDist Real.sqrt qi qj :=
  correction_increases_distance [⟨0, 0, 0, 0, 5⟩, ⟨6, 0, 0, 0, 5⟩] 0 1
    ⟨0, 0, 0, 0, 5⟩ ⟨6, 0, 0, 0, 5⟩ (by decide) rfl rfl
    (by norm_num [centerDistSq, minDistSq])
    (Or.inl (by norm_num))
    (by simp [normalVelocity, velAlongNormal])
    (by
      have h1 : centerDist Real.sqrt (⟨0, 0, 0, 0, 5⟩ : Particle ℝ) ⟨6, 0, 0, 0, 5⟩ = 6 := by
        simp only [centerDist, centerDistSq]
        rw [Real.sqrt_eq_iff_mul_self_eq (by norm_num) (by norm_num)]
        norm_num
      have h2 : Real.sqrt (minDistSq (⟨0, 0, 0, 0, 5⟩ : Particle ℝ) ⟨6, 0, 0, 0, 5⟩) = 10 := by
        simp only [minDistSq]
        rw [Real.sqrt_eq_iff_mul_self_eq (by norm_num) (by norm_num)]
        norm_num
      rw [h1, h2]
      norm_num)

/-- C4 as stated fails in two ways. A separating pair (`velAlongNormal > 0`)
is skipped by `continue` before the positional correction: positions, hence
the distance, do not change. A pair that overlaps by less than the slop
(here by 0.005) gets a positive correction factor and is pulled together. -/
theorem correction_counterexample :
    (centerDistSq (⟨0, 0, 0, 0, 5⟩ : Particle ℝ) ⟨6, 0, 1, 0, 5⟩
        < minDistSq (⟨0, 0, 0, 0, 5⟩ : Particle ℝ) ⟨6, 0, 1, 0, 5⟩
      ∧ inner_body Real.sqrt 0 [(⟨0, 0, 0, 0, 5⟩ : Particle ℝ), ⟨6, 0, 1, 0, 5⟩] 1
        = Except.ok [⟨0, 0, 0, 0, 5⟩, ⟨6, 0, 1, 0, 5⟩]
      ∧ ¬ (centerDist Real.sqrt (⟨0, 0, 0, 0, 5⟩ : Particle ℝ) ⟨6, 0, 1, 0, 5⟩
            < centerDist Real.sqrt (⟨0, 0, 0, 0, 5⟩ : Particle ℝ) ⟨6, 0, 1, 0, 5⟩))
    ∧ (centerDistSq (⟨0, 0, 0, 0, 5⟩ : Particle ℝ) ⟨1999 / 200, 0, 0, 0, 5⟩
        < minDistSq (⟨0, 0, 0, 0, 5⟩ : Particle ℝ) ⟨1999 / 200, 0, 0, 0, 5⟩
      ∧ ∃ qi qj, inner_body Real.sqrt 0
            [(⟨0, 0, 0, 0, 5⟩ : Particle ℝ), ⟨1999 / 200, 0, 0, 0, 5⟩] 1
          = Except.ok [qi, qj]
        ∧ centerDist Real.sqrt qi qj
            < centerDist Real.sqrt (⟨0, 0, 0, 0, 5⟩ : Particle ℝ) ⟨1999 / 200, 0, 0, 0, 5⟩) := by
  constructor
  · refine ⟨by norm_num [centerDistSq, minDistSq], ?_, lt_irrefl _⟩
    have hsep : 0 < normalVelocity Real.sqrt (⟨0, 0, 0, 0, 5⟩ : Particle ℝ) ⟨6, 0, 1, 0, 5⟩ := by
      have h1 : centerDist Real.sqrt (⟨0, 0, 0, 0, 5⟩ : Particle ℝ) ⟨6, 0, 1, 0, 5⟩ = 6 := by
        simp only [centerDist, centerDistSq]
        rw [Real.sqrt_eq_iff_mul_self_eq (by norm_num) (by norm_num)]
        norm_num
      simp only [normalVelocity, velAlongNormal, collisionNormal, h1]
      norm_num
    have hp := collide_pair_separating (⟨0, 0, 0, 0, 5⟩ : Particle ℝ) ⟨6, 0, 1, 0, 5⟩
      (by norm_num [centerDistSq, minDistSq]) (Or.inl (by norm_num)) hsep
    exact (inner_body_ok Real.sqrt [⟨0, 0, 0, 0, 5⟩, ⟨6, 0, 1, 0, 5⟩] 0 1 _ _ _ _
      (by decide) rfl rfl hp).1
  · refine ⟨by norm_num [centerDistSq, minDistSq], ?_⟩
    have h1 : centerDist Real.sqrt (⟨0, 0, 0, 0, 5⟩ : Particle ℝ) ⟨1999 / 200, 0, 0, 0, 5⟩
        = 1999 / 200 := by
      simp only [centerDist, centerDistSq]
      rw [Real.sqrt_eq_iff_mul_self_eq (by norm_num) (by norm_num)]
      norm_num
    have h2 : Real.sqrt (minDistSq (⟨0, 0, 0, 0, 5⟩ : Particle ℝ) ⟨1999 / 200, 0, 0, 0, 5⟩)
        = 10 := by
      simp only [minDistSq]
      rw [Real.sqrt_eq_iff_mul_self_eq (by norm_num) (by norm_num)]
      norm_num
    have hp := collide_pair_resolving (⟨0, 0, 0, 0, 5⟩ : Particle ℝ) ⟨1999 / 200, 0, 0, 0, 5⟩
      (by norm_num [centerDistSq, minDistSq]) (Or.inl (by norm_num))
      (by simp [normalVelocity, velAlongNormal]) _ _ _ _ rfl rfl rfl rfl
    have h := (inner_body_ok Real.sqrt [⟨0, 0, 0, 0, 5⟩, ⟨1999 / 200, 0, 0, 0, 5⟩] 0 1 _ _ _ _
      (by decide) rfl rfl hp).1
    refine ⟨_, _, h, ?_⟩
    rw [h1]
    simp only [collisionNormal, h1, h2]
    simp only [centerDist, centerDistSq]
    rw [Real.sqrt_lt' (by norm_num)]
    norm_num

/-! ### The boundary phase over the reals -/

theorem halfBoxSize_eq (width height : Int) :
    halfBoxSize Real.sqrt width height
      = (((min width height : Int) : ℝ) - 40) / (2 * Real.sqrt 2) := by
  unfold halfBoxSize
  have h2 : Real.sqrt 2 ≠ 0 := ne_of_gt (Real.sqrt_pos.mpr (by norm_num))
  by_cases h : width < height
  · simp only [h, if_true, min_eq_left (le_of_lt h)]
    field_simp
    left; ring
  · simp only [h, if_false, min_eq_right (not_lt.mp h)]
    field_simp
    left; ring

theorem halfBoxSize_nonneg (width height : Int) (hmin : 40 ≤ min width height) :
    0 ≤ halfBoxSize Real.sqrt width height := by
  rw [halfBoxSize_eq]
  have h2 : 0 < Real.sqrt 2 := Real.sqrt_pos.mpr (by norm_num)
  have h40 : (40 : ℝ) ≤ ((min width height : Int) : ℝ) := by exact_mod_cast hmin
  apply div_nonneg <;> linarith

/-- One axis of the boundary phase for a non-negative half-size. -/
theorem boundary_collisions_axes (h x y vx vy : ℝ) (hh : 0 ≤ h) :
    ((boundary_collisions h x y vx vy).1, (boundary_collisions h x y vx vy).2.2.1)
        = (if x < -h then (-h, -(7 / 10) * vx) else if x > h then (h, -(7 / 10) * vx)
            else (x, vx))
      ∧ ((boundary_collisions h x y vx vy).2.1, (boundary_collisions h x y vx vy).2.2.2)
        = (if y < -h then (-h, -(7 / 10) * vy) else if y > h then (h, -(7 / 10) * vy)
            else (y, vy)) := by
  unfold boundary_collisions BOUNCE_DAMPENING
  constructor
  · by_cases h1 : x < -h
    · have h2 : ¬ (-h > h) := by intro h2; linarith
      simp [h1, h2]; ring
    · by_cases h2 : x > h
      · simp [h1, h2]; ring
      · simp [h1, h2]
  · by_cases h1 : y < -h
    · have h2 : ¬ (-h > h) := by intro h2; linarith
      simp [h1, h2]; ring
    · by_cases h2 : y > h
      · simp [h1, h2]; ring
      · simp [h1, h2]

/-- C5: with `min(width, height) ≥ 40`, on each local axis a coordinate
strictly beyond a boundary is set to that boundary and the velocity
component becomes `-0.7` times its old value; a coordinate within the
boundaries leaves coordinate and velocity component unchanged. -/
theorem boundary_bounce (width height : Int) (hmin : 40 ≤ min width height)
    (x y vx vy : ℝ) :
    (x < -halfBoxSize Real.sqrt width height →
        (boundary_collisions (halfBoxSize Real.sqrt width height) x y vx vy).1
            = -halfBoxSize Real.sqrt width height
          ∧ (boundary_collisions (halfBoxSize Real.sqrt width height) x y vx vy).2.2.1
            = -(7 / 10) * vx)
      ∧ (x > halfBoxSize Real.sqrt width height →
        (boundary_collisions (halfBoxSize Real.sqrt width height) x y vx vy).1
            = halfBoxSize Real.sqrt width height
          ∧ (boundary_collisions (halfBoxSize Real.sqrt width height) x y vx vy).2.2.1
            = -(7 / 10) * vx)
      ∧ (-halfBoxSize Real.sqrt width height ≤ x ∧ x ≤ halfBoxSize Real.sqrt width height →
        (boundary_collisions (halfBoxSize Real.sqrt width height) x y vx vy).1 = x
          ∧ (boundary_collisions (halfBoxSize Real.sqrt width height) x y vx vy).2.2.1 = vx)
      ∧ (y < -halfBoxSize Real.sqrt width height →
        (boundary_collisions (halfBoxSize Real.sqrt width height) x y vx vy).2.1
            = -halfBoxSize Real.sqrt width height
          ∧ (boundary_collisions (halfBoxSize Real.sqrt width height) x y vx vy).2.2.2
            = -(7 / 10) * vy)
      ∧ (y > halfBoxSize Real.sqrt width height →
        (boundary_collisions (halfBoxSize Real.sqrt width height) x y vx vy).2.1
            = halfBoxSize Real.sqrt width height
          ∧ (boundary_collisions (halfBoxSize Real.sqrt width height) x y vx vy).2.2.2
            = -(7 / 10) * vy)
      ∧ (-halfBoxSize Real.sqrt width height ≤ y ∧ y ≤ halfBoxSize Real.sqrt width height →
        (boundary_collisions (halfBoxSize Real.sqrt width height) x y vx vy).2.1 = y
          ∧ (boundary_collisions (halfBoxSize Real.sqrt width height) x y vx vy).2.2.2 = vy) := by
  have hh := halfBoxSize_nonneg width height hmin
  obtain ⟨hx, hy⟩ := boundary_collisions_axes (halfBoxSize Real.sqrt width height) x y vx vy hh
  generalize halfBoxSize Real.sqrt width height = h at *
  generalize boundary_collisions h x y vx vy = r at *
  rw [Prod.ext_iff] at hx hy
  simp only at hx hy
  refine ⟨?_, ?_, ?_, ?_, ?_, ?_⟩
  · intro h1
    rw [hx.1, hx.2]; simp [h1]
  · intro h1
    have h2 : ¬ x < -h := by intro h2; linarith
    rw [hx.1, hx.2]; simp [h1, h2]
  · intro h1
    have h2 : ¬ x < -h := not_lt.mpr h1.1
    have h3 : ¬ x > h := not_lt.mpr h1.2
    rw [hx.1, hx.2]; simp [h2, h3]
  · intro h1
    rw [hy.1, hy.2]; simp [h1]
  · intro h1
    have h2 : ¬ y < -h := by intro h2; linarith
    rw [hy.1, hy.2]; simp [h1, h2]
  · intro h1
    have h2 : ¬ y < -h := not_lt.mpr h1.1
    have h3 : ¬ y > h := not_lt.mpr h1.2
    rw [hy.1, hy.2]; simp [h2, h3]

theorem halfBoxSize_800_600 : halfBoxSize Real.sqrt 800 600 = 140 * Real.sqrt 2 := by
  rw [halfBoxSize_eq]
  have h2 : 0 < Real.sqrt 2 := Real.sqrt_pos.mpr (by norm_num)
  have hs : Real.sqrt 2 * Real.sqrt 2 = 2 := Real.mul_self_sqrt (by norm_num)
  have hm : ((min (800 : Int) 600 : Int) : ℝ) = 600 := by norm_num
  rw [hm]
  field_simp
  nlinarith

theorem sqrt_two_bounds : (1414 / 1000 : ℝ) < Real.sqrt 2 ∧ Real.sqrt 2 < 1415 / 1000 := by
  constructor
  · rw [Real.lt_sqrt (by norm_num)]
    norm_num
  · rw [Real.sqrt_lt' (by norm_num)]
    norm_num

theorem halfBoxSize_800_600_bounds :
    (197 : ℝ) < halfBoxSize Real.sqrt 800 600 ∧ halfBoxSize Real.sqrt 800 600 < 199 := by
  rw [halfBoxSize_800_600]
  obtain ⟨h1, h2⟩ := sqrt_two_bounds
  constructor <;> linarith

/-- Witness of C5: an 800 x 600 viewport and a particle at local
`(300, 0)` with local velocity `(3, 4)`: the x axis bounces. -/
theorem boundary_bounce_witness :
    (boundary_collisions (halfBoxSize Real.sqrt 800 600) 300 0 3 4).1
        = halfBoxSize Real.sqrt 800 600
      ∧ (boundary_collisions (halfBoxSize Real.sqrt 800 600) 300 0 3 4).2.2.1
        = -(7 / 10) * 3 :=
  (boundary_bounce 800 600 (by decide) 300 0 3 4).2.1
    (by have h := halfBoxSize_800_600_bounds.2; linarith)

/-- The local position of the value committed by the boundary phase is the
clamped local position: the two transforms cancel. -/
theorem local_position_step_particle (p : Particle ℝ) (dt : ℝ) (width height : Int)
    (angle : ℝ) :
    local_position Real.cos Real.sin
        (step_particle Real.cos Real.sin Real.sqrt p dt width height angle) width height angle
      = ((boundary_collisions (halfBoxSize Real.sqrt width height)
            (integrate_local Real.cos Real.sin p dt width height angle).1
            (integrate_local Real.cos Real.sin p dt width height angle).2.1
            (integrate_local Real.cos Real.sin p dt width height angle).2.2.1
            (integrate_local Real.cos Real.sin p dt width height angle).2.2.2).1,
         (boundary_collisions (halfBoxSize Real.sqrt width height)
            (integrate_local Real.cos Real.sin p dt width height angle).1
            (integrate_local Real.cos Real.sin p dt width height angle).2.1
            (integrate_local Real.cos Real.sin p dt width height angle).2.2.1
            (integrate_local Real.cos Real.sin p dt width height angle).2.2.2).2.1) := by
  simp only [local_position, step_particle]
  generalize boundary_collisions (halfBoxSize Real.sqrt width height)
      (integrate_local Real.cos Real.sin p dt width height angle).1
      (integrate_local Real.cos Real.sin p dt width height angle).2.1
      (integrate_local Real.cos Real.sin p dt width height angle).2.2.1
      (integrate_local Real.cos Real.sin p dt width height angle).2.2.2 = b
  simp only [transform_to_box_space, transform_from_box_space,
    Real.cos_neg, Real.sin_neg, Prod.mk.injEq]
  have h := Real.cos_sq_add_sin_sq angle
  constructor
  · linear_combination b.1 * h
  · linear_combination b.2.1 * h

/-- The upper boundary test clamps whatever the sign of the half-size. -/
theorem boundary_collisions_upper (h x y vx vy : ℝ) :
    (x > h → (boundary_collisions h x y vx vy).1 = h)
      ∧ (y > h → (boundary_collisions h x y vx vy).2.1 = h) := by
  unfold boundary_collisions
  constructor
  · intro hx
    by_cases h1 : x < -h
    · have h2 : -h > h := by linarith
      simp [h1, h2]
    · simp [h1, hx]
  · intro hy
    by_cases h1 : y < -h
    · have h2 : -h > h := by linarith
      simp [h1, h2]
    · simp [h1, hy]

/-- The boundary phase leaves both coordinates within the box when the
half-size is not negative. -/
theorem boundary_collisions_inBox (h x y vx vy : ℝ) (hh : 0 ≤ h) :
    inBox h ((boundary_collisions h x y vx vy).1, (boundary_collisions h x y vx vy).2.1) := by
  obtain ⟨hx, hy⟩ := boundary_collisions_axes h x y vx vy hh
  rw [Prod.ext_iff] at hx hy
  simp only at hx hy
  unfold inBox
  simp only
  rw [hx.1, hy.1]
  refine ⟨?_, ?_, ?_, ?_⟩
  · by_cases h1 : x < -h
    · simp [h1]
    · by_cases h2 : x > h
      · simp [h1, h2]; linarith
      · simp [h1, h2]; linarith
  · by_cases h1 : x < -h
    · simp [h1]; linarith
    · by_cases h2 : x > h
      · simp [h1, h2]
      · simp [h1, h2]; linarith
  · by_cases h1 : y < -h
    · simp [h1]
    · by_cases h2 : y > h
      · simp [h1, h2]; linarith
      · simp [h1, h2]; linarith
  · by_cases h1 : y < -h
    · simp [h1]; linarith
    · by_cases h2 : y > h
      · simp [h1, h2]
      · simp [h1, h2]; linarith

/-- The last outer iteration has an empty inner loop: the run returns what the
earlier iterations produced, with the last particle replaced by its committed
value. -/
theorem update_particles_last {α : Type} [LinearOrderedField α] (cos sin sqrt : α → α)
    (particles ps : List (Particle α)) (m : Nat) (dt : α) (width height : Int)
    (box : BoxState α)
    (hrun : update_particles cos sin sqrt particles (m + 1) dt width height box
      = Except.ok ps) :
    ∃ (ps1 : List (Particle α)) (p : Particle α), ps1[m]? = some p
      ∧ ps = ps1.set m (step_particle cos sin sqrt p dt width height box.angle) := by
  unfold update_particles at hrun
  rw [List.range_succ, List.foldlM_append] at hrun
  cases hpre : List.foldlM (outer_body cos sin sqrt (m + 1) dt width height box) particles
      (List.range m) with
  | error e => rw [hpre] at hrun; simp [bind, Except.bind] at hrun
  | ok ps1 =>
    rw [hpre] at hrun
    simp only [bind, Except.bind, List.foldlM, outer_body, readAt, pure, Except.pure] at hrun
    cases hp : ps1[m]? with
    | none => rw [hp] at hrun; simp at hrun
    | some p =>
      rw [hp] at hrun
      simp only [Nat.sub_self, List.range'_zero, List.foldlM, pure, Except.pure] at hrun
      refine ⟨ps1, p, hp, ?_⟩
      cases hrun
      rfl

/-- C9 as stated fails: for an 800 x 600 viewport the half-size used by
`update_particles` is `560 / sqrt 2 / 2`, not `560 / sqrt 2`. -/
theorem half_size_counterexample :
    halfBoxSize Real.sqrt 800 600
      ≠ (((min (800 : Int) 600 : Int) : ℝ) - 40) / Real.sqrt 2 := by
  rw [halfBoxSize_800_600]
  have h2 : 0 < Real.sqrt 2 := Real.sqrt_pos.mpr (by norm_num)
  have hs : Real.sqrt 2 * Real.sqrt 2 = 2 := Real.mul_self_sqrt (by norm_num)
  have hm : ((min (800 : Int) 600 : Int) : ℝ) = 600 := by norm_num
  rw [hm]
  intro h
  field_simp at h
  nlinarith

/-- C9, amended: the half-size `update_particles` uses is
`(min(width, height) - 40) / (2 sqrt 2)`, half of the box side
`(min(width, height) - 40) / sqrt 2`; it is the value a local coordinate
beyond the upper boundary is committed at, on both axes, and, negated, the
value a coordinate below the lower boundary is committed at when
`min(width, height) ≥ 40`. -/
theorem half_size_value (width height : Int) (p : Particle ℝ) (dt angle : ℝ) :
    halfBoxSize Real.sqrt width height
        = (((min width height : Int) : ℝ) - 40) / (2 * Real.sqrt 2)
      ∧ ((integrate_local Real.cos Real.sin p dt width height angle).1
            > (((min width height : Int) : ℝ) - 40) / (2 * Real.sqrt 2) →
          (local_position Real.cos Real.sin
              (step_particle Real.cos Real.sin Real.sqrt p dt width height angle)
              width height angle).1
            = (((min width height : Int) : ℝ) - 40) / (2 * Real.sqrt 2))
      ∧ ((integrate_local Real.cos Real.sin p dt width height angle).2.1
            > (((min width height : Int) : ℝ) - 40) / (2 * Real.sqrt 2) →
          (local_position Real.cos Real.sin
              (step_particle Real.cos Real.sin Real.sqrt p dt width height angle)
              width height angle).2
            = (((min width height : Int) : ℝ) - 40) / (2 * Real.sqrt 2))
      ∧ (40 ≤ min width height →
          (integrate_local Real.cos Real.sin p dt width height angle).1
            < -((((min width height : Int) : ℝ) - 40) / (2 * Real.sqrt 2)) →
          (local_position Real.cos Real.sin
              (step_particle Real.cos Real.sin Real.sqrt p dt width height angle)
              width height angle).1
            = -((((min width height : Int) : ℝ) - 40) / (2 * Real.sqrt 2)))
      ∧ (40 ≤ min width height →
          (integrate_local Real.cos Real.sin p dt width height angle).2.1
            < -((((min width height : Int) : ℝ) - 40) / (2 * Real.sqrt 2)) →
          (local_position Real.cos Real.sin
              (step_particle Real.cos Real.sin Real.sqrt p dt width height angle)
              width height angle).2
            = -((((min width height : Int) : ℝ) - 40) / (2 * Real.sqrt 2))) := by
  rw [local_position_step_particle, ← halfBoxSize_eq]
  generalize integrate_local Real.cos Real.sin p dt width height angle = loc
  generalize hH : halfBoxSize Real.sqrt width height = H
  refine ⟨rfl, ?_, ?_, ?_, ?_⟩
  · intro hx
    exact (boundary_collisions_upper H loc.1 loc.2.1 loc.2.2.1 loc.2.2.2).1 hx
  · intro hy
    exact (boundary_collisions_upper H loc.1 loc.2.1 loc.2.2.1 loc.2.2.2).2 hy
  · intro hmin hx
    have hh : 0 ≤ H := hH ▸ halfBoxSize_nonneg width height hmin
    have h := (boundary_collisions_axes H loc.1 loc.2.1 loc.2.2.1 loc.2.2.2 hh).1
    rw [Prod.ext_iff] at h
    simp only at h
    rw [h.1]
    simp [hx]
  · intro hmin hy
    have hh : 0 ≤ H := hH ▸ halfBoxSize_nonneg width height hmin
    have h := (boundary_collisions_axes H loc.1 loc.2.1 loc.2.2.1 loc.2.2.2 hh).2
    rw [Prod.ext_iff] at h
    simp only at h
    rw [h.1]
    simp [hy]

/-- The integrated local state of the particle `(700, 295)` at rest, after
half a second, in an 800 x 600 viewport with an unrotated box. -/
theorem integrate_local_sample :
    integrate_local Real.cos Real.sin (⟨700, 295, 0, 0, 5⟩ : Particle ℝ) (1 / 2) 800 600 0
      = (300, 0, 0, 10) := by
  simp only [integrate_local, transform_to_box_space, rotate_vector, GRAVITY, neg_zero,
    Real.cos_zero, Real.sin_zero]
  norm_num

/-- Witness of C9 (amended): an 800 x 600 viewport and the particle
`(700, 295)` at rest, half a second: local x is committed at
`560 / (2 sqrt 2)`. -/
theorem half_size_value_witness :
    (local_position Real.cos Real.sin
        (step_particle Real.cos Real.sin Real.sqrt ⟨700, 295, 0, 0, 5⟩ (1 / 2) 800 600 0)
        800 600 0).1
      = (((min (800 : Int) 600 : Int) : ℝ) - 40) / (2 * Real.sqrt 2) :=
  (half_size_value 800 600 ⟨700, 295, 0, 0, 5⟩ (1 / 2) 0).2.1
    (by
      rw [integrate_local_sample, ← halfBoxSize_eq]
      have h := halfBoxSize_800_600_bounds.2
      show halfBoxSize Real.sqrt 800 600 < 300
      linarith)

/-! ### Runs of `update_particles` on one and two particles -/

theorem update_particles_one {α : Type} [LinearOrderedField α] (cos sin sqrt : α → α)
    (a : Particle α) (dt : α) (width height : Int) (box : BoxState α) :
    update_particles cos sin sqrt [a] 1 dt width height box
      = Except.ok [step_particle cos sin sqrt a dt width height box.angle] := by
  simp [update_particles, List.range_succ, outer_body, readAt, bind, Except.bind, pure,
    Except.pure]

theorem update_particles_two_ok {α : Type} [LinearOrderedField α] (cos sin sqrt : α → α)
    (a b q0 q1 : Particle α) (dt : α) (width height : Int) (box : BoxState α)
    (hpair : collide_pair sqrt (step_particle cos sin sqrt a dt width height box.angle) b
      = Except.ok (q0, q1)) :
    update_particles cos sin sqrt [a, b] 2 dt width height box
      = Except.ok [q0, step_particle cos sin sqrt q1 dt width height box.angle] := by
  have hr : List.range 2 = [0, 1] := rfl
  simp [update_particles, hr, outer_body, inner_body, readAt, bind, Except.bind, pure,
    Except.pure, hpair, List.range']

theorem update_particles_two_error {α : Type} [LinearOrderedField α] (cos sin sqrt : α → α)
    (a b : Particle α) (e : Fault) (dt : α) (width height : Int) (box : BoxState α)
    (hpair : collide_pair sqrt (step_particle cos sin sqrt a dt width height box.angle) b
      = Except.error e) :
    update_particles cos sin sqrt [a, b] 2 dt width height box = Except.error e := by
  have hr : List.range 2 = [0, 1] := rfl
  simp [update_particles, hr, outer_body, inner_body, readAt, bind, Except.bind, pure,
    Except.pure, hpair, List.range']

/-- The value committed for the particle `(700, 295)` at rest, after half a
second, 800 x 600 viewport, unrotated box: it is clamped to the right edge. -/
theorem step_particle_sample :
    step_particle Real.cos Real.sin Real.sqrt (⟨700, 295, 0, 0, 5⟩ : Particle ℝ) (1 / 2)
        800 600 0
      = ⟨halfBoxSize Real.sqrt 800 600 + 400, 300, 0, 10, 5⟩ := by
  obtain ⟨hlo, hhi⟩ := halfBoxSize_800_600_bounds
  have hb : boundary_collisions (halfBoxSize Real.sqrt 800 600) 300 0 0 10
      = (halfBoxSize Real.sqrt 800 600, 0, 0, 10) := by
    have h1 : ¬ ((300 : ℝ) < -halfBoxSize Real.sqrt 800 600) := by intro h; linarith
    have h2 : (300 : ℝ) > halfBoxSize Real.sqrt 800 600 := by linarith
    have h3 : ¬ ((0 : ℝ) < -halfBoxSize Real.sqrt 800 600) := by intro h; linarith
    have h4 : ¬ ((0 : ℝ) > halfBoxSize Real.sqrt 800 600) := by intro h; linarith
    simp [boundary_collisions, h1, h2, h3, h4]
  simp only [step_particle, integrate_local_sample, hb, rotate_vector,
    transform_from_box_space, Real.cos_zero, Real.sin_zero]
  norm_num

/-- With a negative half-size the boundary phase always ends at the upper
boundary, which then lies below the lower one. -/
theorem boundary_collisions_negative (h x y vx vy : ℝ) (hh : h < 0) :
    (boundary_collisions h x y vx vy).1 = h := by
  unfold boundary_collisions
  by_cases h1 : x < -h
  · have h2 : -h > h := by linarith
    simp [h1, h2]
  · have h2 : x > h := by linarith [not_lt.mp h1]
    simp [h1, h2]

/-- A local x coordinate beyond the upper boundary is outside the box. -/
theorem beyond_upper_not_inBox (h : ℝ) (q : ℝ × ℝ) (hq : h < q.1) :
    h < q.1 ∧ ¬ inBox h q :=
  ⟨hq, fun hin => absurd hin.2.1 (not_le.mpr hq)⟩

/-- For an unrotated box the local x coordinate is the offset from the
center. -/
theorem local_position_unrotated_x (q : Particle ℝ) (width height : Int) :
    (local_position Real.cos Real.sin q width height 0).1 = q.x - (width : ℝ) / 2 := by
  simp [local_position, transform_to_box_space]

/-- C2 as stated fails in two ways. In an 800 x 600 viewport, particle 0 is
clamped to the right edge of the box and overlaps particle 1, which sits
2.99 to its left: the positional correction then pushes particle 0 out of the
box, and nothing clamps it again. In a 20 x 20 viewport the half-size is
negative and no position satisfies the bounds. -/
theorem containment_counterexample :
    (∃ q0 q1, update_particles Real.cos Real.sin Real.sqrt
          [(⟨700, 295, 0, 0, 5⟩ : Particle ℝ), ⟨595, 300, 0, 0, 5⟩] 2 (1 / 2) 800 600
          ⟨0, 0, false, 0⟩ = Except.ok [q0, q1]
        ∧ halfBoxSize Real.sqrt 800 600
            < (local_position Real.cos Real.sin q0 800 600 0).1
        ∧ ¬ inBox (halfBoxSize Real.sqrt 800 600)
            (local_position Real.cos Real.sin q0 800 600 0))
      ∧ (∃ q, update_particles Real.cos Real.sin Real.sqrt
          [(⟨10, 10, 0, 0, 5⟩ : Particle ℝ)] 1 0 20 20 ⟨0, 0, false, 0⟩ = Except.ok [q]
        ∧ ¬ inBox (halfBoxSize Real.sqrt 20 20)
            (local_position Real.cos Real.sin q 20 20 0)) := by
  constructor
  · obtain ⟨hlo, hhi⟩ := halfBoxSize_800_600_bounds
    generalize hH : halfBoxSize Real.sqrt 800 600 = H at hlo hhi
    have hov : centerDistSq (⟨H + 400, 300, 0, 10, 5⟩ : Particle ℝ) ⟨595, 300, 0, 0, 5⟩
        < minDistSq (⟨H + 400, 300, 0, 10, 5⟩ : Particle ℝ) ⟨595, 300, 0, 0, 5⟩ := by
      simp only [centerDistSq, minDistSq]
      nlinarith
    have hne : (⟨H + 400, 300, 0, 10, 5⟩ : Particle ℝ).x ≠ (⟨595, 300, 0, 0, 5⟩ : Particle ℝ).x
        ∨ (⟨H + 400, 300, 0, 10, 5⟩ : Particle ℝ).y ≠ (⟨595, 300, 0, 0, 5⟩ : Particle ℝ).y := by
      left
      show H + 400 ≠ 595
      intro h
      linarith
    have happ : normalVelocity Real.sqrt (⟨H + 400, 300, 0, 10, 5⟩ : Particle ℝ)
        ⟨595, 300, 0, 0, 5⟩ ≤ 0 := by
      simp [normalVelocity, velAlongNormal, collisionNormal]
    have hp := collide_pair_resolving _ _ hov hne happ _ _ _ _ rfl rfl rfl rfl
    have hd := centerDist_pos _ _ hne
    have hd4 : centerDist Real.sqrt (⟨H + 400, 300, 0, 10, 5⟩ : Particle ℝ)
        ⟨595, 300, 0, 0, 5⟩ < 4 := by
      simp only [centerDist, centerDistSq]
      rw [Real.sqrt_lt' (by norm_num)]
      nlinarith
    have hr : Real.sqrt (minDistSq (⟨H + 400, 300, 0, 10, 5⟩ : Particle ℝ)
        ⟨595, 300, 0, 0, 5⟩) = 10 := by
      simp only [minDistSq]
      rw [Real.sqrt_eq_iff_mul_self_eq (by norm_num) (by norm_num)]
      norm_num
    have hrun := update_particles_two_ok Real.cos Real.sin Real.sqrt
      (⟨700, 295, 0, 0, 5⟩ : Particle ℝ) ⟨595, 300, 0, 0, 5⟩ _ _ (1 / 2) 800 600
      ⟨0, 0, false, 0⟩ (by rw [step_particle_sample, hH]; exact hp)
    refine ⟨_, _, hrun, ?_⟩
    apply beyond_upper_not_inBox
    rw [local_position_unrotated_x]
    simp only [collisionNormal, hr]
    generalize centerDist Real.sqrt (⟨H + 400, 300, 0, 10, 5⟩ : Particle ℝ)
      ⟨595, 300, 0, 0, 5⟩ = d at hd hd4
    have hnx : (595 - (H + 400)) / d < 0 := div_neg_of_neg_of_pos (by linarith) hd
    have hc : (d - 10 + 1 / 100) / d * (2 / 10) < 0 := by
      have : (d - 10 + 1 / 100) / d < 0 := div_neg_of_neg_of_pos (by linarith) hd
      linarith
    have hpush : 0 < (d - 10 + 1 / 100) / d * (2 / 10) * ((595 - (H + 400)) / d) :=
      mul_pos_of_neg_of_neg hc hnx
    generalize (d - 10 + 1 / 100) / d * (2 / 10) * ((595 - (H + 400)) / d) = t at hpush
    norm_num
    linarith
  · refine ⟨_, update_particles_one Real.cos Real.sin Real.sqrt _ _ _ _ _, ?_⟩
    have hneg : halfBoxSize Real.sqrt 20 20 < 0 := by
      rw [halfBoxSize_eq]
      have h2 : 0 < Real.sqrt 2 := Real.sqrt_pos.mpr (by norm_num)
      have hm : ((min (20 : Int) 20 : Int) : ℝ) = 20 := by norm_num
      rw [hm]
      apply div_neg_of_neg_of_pos <;> linarith
    intro hin
    have hx := hin.1
    rw [local_position_step_particle] at hx
    simp only at hx
    rw [boundary_collisions_negative _ _ _ _ _ hneg] at hx
    linarith

/-! ### Coincident centers -/

/-- Two particles with the same center and a non-zero radius sum reach the
division `dx / dist` with `dist = 0`, for any square root that sends `0` to
`0`. -/
theorem collide_pair_coincident {α : Type} [LinearOrderedField α] (sqrt : α → α)
    (hsqrt : sqrt 0 = 0) (pi pj : Particle α)
    (hx : pj.x = pi.x) (hy : pj.y = pi.y) (hr : pi.radius + pj.radius ≠ 0) :
    collide_pair sqrt pi pj = Except.error Fault.zeroDivisor := by
  have hpos : (0 : α) < (pi.radius + pj.radius) * (pi.radius + pj.radius) :=
    mul_self_pos.mpr hr
  unfold collide_pair
  simp only [hx, hy, sub_self, mul_zero, add_zero, hpos, if_true, hsqrt, fdiv]
  rfl

/-- C10, the code at the failing input: in an 800 x 600 viewport with an
unrotated box, particle 0 starts at `(400, 295)` at rest and particle 1 at
`(400, 300)`, both of radius 5; after half a second of gravity particle 0 is
committed at `(400, 300)`, the pair has distance 0, and the run divides by
it. -/
theorem coincident_pair_divides_by_zero :
    update_particles Real.cos Real.sin Real.sqrt
        [(⟨400, 295, 0, 0, 5⟩ : Particle ℝ), ⟨400, 300, 0, 0, 5⟩] 2 (1 / 2) 800 600
        ⟨0, 0, false, 0⟩
      = Except.error Fault.zeroDivisor := by
  obtain ⟨hlo, hhi⟩ := halfBoxSize_800_600_bounds
  have hloc : integrate_local Real.cos Real.sin (⟨400, 295, 0, 0, 5⟩ : Particle ℝ) (1 / 2)
      800 600 0 = (0, 0, 0, 10) := by
    simp only [integrate_local, transform_to_box_space, rotate_vector, GRAVITY, neg_zero,
      Real.cos_zero, Real.sin_zero]
    norm_num
  have hb : boundary_collisions (halfBoxSize Real.sqrt 800 600) 0 0 0 10
      = (0, 0, 0, 10) := by
    have h3 : ¬ ((0 : ℝ) < -halfBoxSize Real.sqrt 800 600) := by intro h; linarith
    have h4 : ¬ ((0 : ℝ) > halfBoxSize Real.sqrt 800 600) := by intro h; linarith
    simp [boundary_collisions, h3, h4]
  have hstep : step_particle Real.cos Real.sin Real.sqrt (⟨400, 295, 0, 0, 5⟩ : Particle ℝ)
      (1 / 2) 800 600 0 = ⟨400, 300, 0, 10, 5⟩ := by
    simp only [step_particle, hloc, hb, rotate_vector, transform_from_box_space,
      Real.cos_zero, Real.sin_zero]
    norm_num
  apply update_particles_two_error
  rw [hstep]
  exact collide_pair_coincident Real.sqrt Real.sqrt_zero _ _ rfl rfl (by norm_num)

/-! ### The box state machine over the reals -/

theorem elapsed_nil : elapsed ([] : List (List (Particle ℝ) × ℝ)) = 0 := by
  simp [elapsed]

theorem elapsed_cons (f : List (Particle ℝ) × ℝ) (fs : List (List (Particle ℝ) × ℝ)) :
    elapsed (f :: fs) = f.2 + elapsed fs := by
  simp [elapsed]

theorem elapsed_append (fs gs : List (List (Particle ℝ) × ℝ)) :
    elapsed (fs ++ gs) = elapsed fs + elapsed gs := by
  simp [elapsed]

theorem elapsed_nonneg (fs : List (List (Particle ℝ) × ℝ)) (hnn : ∀ f ∈ fs, 0 ≤ f.2) :
    0 ≤ elapsed fs := by
  induction fs with
  | nil => simp [elapsed]
  | cons f fs ih =>
    rw [elapsed_cons]
    have h1 := hnn f (List.mem_cons_self f fs)
    have h2 := ih (fun g hg => hnn g (List.mem_cons_of_mem f hg))
    linarith

theorem box_run_nil (b : BoxState ℝ) : box_run Real.sqrt Real.pi b [] = b := rfl

theorem box_run_cons (b : BoxState ℝ) (f : List (Particle ℝ) × ℝ)
    (fs : List (List (Particle ℝ) × ℝ)) :
    box_run Real.sqrt Real.pi b (f :: fs)
      = box_run Real.sqrt Real.pi (box_frame Real.sqrt Real.pi b f) fs := rfl

theorem box_run_append (b : BoxState ℝ) (fs gs : List (List (Particle ℝ) × ℝ)) :
    box_run Real.sqrt Real.pi b (fs ++ gs)
      = box_run Real.sqrt Real.pi (box_run Real.sqrt Real.pi b fs) gs := by
  simp [box_run, List.foldl_append]

/-- The settle check only ever writes `timeSinceLastMove`. -/
theorem settle_check_fields (ps : List (Particle ℝ)) (b : BoxState ℝ) :
    (settle_check Real.sqrt ps b).2.angle = b.angle
      ∧ (settle_check Real.sqrt ps b).2.targetAngle = b.targetAngle
      ∧ (settle_check Real.sqrt ps b).2.isRotating = b.isRotating := by
  induction ps with
  | nil => simp [settle_check]
  | cons p ps ih =>
    unfold settle_check
    by_cases h : Real.sqrt (p.vx * p.vx + p.vy * p.vy) > SETTLED_VELOCITY_THRESHOLD
    · simp [h]
    · simp only [h, if_false]
      exact ih

/-- When no particle is faster than the threshold the settle check reports
`allSettled` and leaves the box alone. -/
theorem settle_check_slow (ps : List (Particle ℝ)) (b : BoxState ℝ)
    (hslow : ∀ p ∈ ps, Real.sqrt (p.vx * p.vx + p.vy * p.vy) < 1) :
    settle_check Real.sqrt ps b = (true, b) := by
  induction ps with
  | nil => simp [settle_check]
  | cons p ps ih =>
    unfold settle_check
    have h1 := hslow p (List.mem_cons_self p ps)
    have h : ¬ Real.sqrt (p.vx * p.vx + p.vy * p.vy) > SETTLED_VELOCITY_THRESHOLD := by
      unfold SETTLED_VELOCITY_THRESHOLD
      intro h
      linarith
    simp only [h, if_false]
    exact ih (fun q hq => hslow q (List.mem_cons_of_mem p hq))

theorem box_frame_eq (b : BoxState ℝ) (f : List (Particle ℝ) × ℝ) :
    box_frame Real.sqrt Real.pi b f
      = rotation_step f.2 (settle_timer Real.pi (settle_check Real.sqrt f.1 b).1 f.2
          (settle_check Real.sqrt f.1 b).2) := rfl

/-- A rotating box is never given a new target by the timer. -/
theorem settle_timer_rotating (s : Bool) (dt : ℝ) (c : BoxState ℝ)
    (hr : c.isRotating = true) :
    (settle_timer Real.pi s dt c).angle = c.angle
      ∧ (settle_timer Real.pi s dt c).targetAngle = c.targetAngle
      ∧ (settle_timer Real.pi s dt c).isRotating = true := by
  unfold settle_timer
  cases s <;> simp [hr]

/-- The rotation stepper on a rotating box. -/
theorem rotation_step_rotating (dt : ℝ) (t : BoxState ℝ) (hr : t.isRotating = true) :
    (rotation_step dt t).targetAngle = t.targetAngle
      ∧ (t.targetAngle ≤ t.angle + 1 / 2 * dt →
          (rotation_step dt t).angle = t.targetAngle
            ∧ (rotation_step dt t).isRotating = false
            ∧ (rotation_step dt t).timeSinceLastMove = 0)
      ∧ (t.angle + 1 / 2 * dt < t.targetAngle →
          (rotation_step dt t).angle = t.angle + 1 / 2 * dt
            ∧ (rotation_step dt t).isRotating = true) := by
  unfold rotation_step ROTATION_SPEED
  simp only [hr, if_true, ge_iff_le]
  refine ⟨?_, ?_, ?_⟩
  · by_cases h : t.targetAngle ≤ t.angle + 1 / 2 * dt
    · rw [if_pos h]
    · rw [if_neg h]
  · intro h
    rw [if_pos h]
    exact ⟨rfl, rfl, rfl⟩
  · intro h
    rw [if_neg (not_le.mpr h)]
    exact ⟨rfl, rfl⟩

/-- One frame of a rotating box: the angle advances by half the frame time and
is clamped at the target. -/
theorem box_frame_rotating (b : BoxState ℝ) (f : List (Particle ℝ) × ℝ)
    (hrot : b.isRotating = true) :
    (box_frame Real.sqrt Real.pi b f).targetAngle = b.targetAngle
      ∧ (b.targetAngle ≤ b.angle + 1 / 2 * f.2 →
          (box_frame Real.sqrt Real.pi b f).angle = b.targetAngle
            ∧ (box_frame Real.sqrt Real.pi b f).isRotating = false
            ∧ (box_frame Real.sqrt Real.pi b f).timeSinceLastMove = 0)
      ∧ (b.angle + 1 / 2 * f.2 < b.targetAngle →
          (box_frame Real.sqrt Real.pi b f).angle = b.angle + 1 / 2 * f.2
            ∧ (box_frame Real.sqrt Real.pi b f).isRotating = true) := by
  obtain ⟨ha, ht, hr⟩ := settle_check_fields f.1 b
  rw [hrot] at hr
  obtain ⟨hta, htt, htr⟩ := settle_timer_rotating (settle_check Real.sqrt f.1 b).1 f.2
    (settle_check Real.sqrt f.1 b).2 hr
  have h := rotation_step_rotating f.2 _ htr
  rw [← box_frame_eq, hta, htt, ha, ht] at h
  exact h

/-- A rotating box that has not reached its target after the whole run is
still rotating, and its angle has advanced by half the elapsed time. -/
theorem box_run_rotating (fs : List (List (Particle ℝ) × ℝ)) :
    ∀ b : BoxState ℝ, b.isRotating = true → (∀ f ∈ fs, 0 ≤ f.2) →
      b.angle + 1 / 2 * elapsed fs < b.targetAngle →
      (box_run Real.sqrt Real.pi b fs).isRotating = true
        ∧ (box_run Real.sqrt Real.pi b fs).targetAngle = b.targetAngle
        ∧ (box_run Real.sqrt Real.pi b fs).angle = b.angle + 1 / 2 * elapsed fs := by
  induction fs with
  | nil =>
    intro b hrot _ _
    simp [box_run_nil, elapsed_nil, hrot]
  | cons f fs ih =>
    intro b hrot hnn hlt
    rw [elapsed_cons] at hlt
    have hf := hnn f (List.mem_cons_self f fs)
    have hfs : ∀ g ∈ fs, 0 ≤ g.2 := fun g hg => hnn g (List.mem_cons_of_mem f hg)
    have hrest := elapsed_nonneg fs hfs
    obtain ⟨ht, _, hstep⟩ := box_frame_rotating b f hrot
    obtain ⟨ha, hr⟩ := hstep (by linarith)
    obtain ⟨h1, h2, h3⟩ := ih (box_frame Real.sqrt Real.pi b f) hr hfs
      (by rw [ha, ht]; linarith)
    rw [box_run_cons, elapsed_cons]
    refine ⟨h1, by rw [h2, ht], ?_⟩
    rw [h3, ha]
    ring

/-- C8: from a rotating box with `targetAngle = angle + pi` and non-negative
frame times, as long as the box rotates its angle neither decreases nor
exceeds the target, and at the end of the first frame by which the elapsed
time reaches `2 pi` the angle is the target, `isRotating` is false and
`timeSinceLastMove` is 0. `pre` are the frames before that frame, `last` is
that frame. -/
theorem rotation_completes (b0 : BoxState ℝ) (pre : List (List (Particle ℝ) × ℝ))
    (last : List (Particle ℝ) × ℝ)
    (hrot : b0.isRotating = true) (htarget : b0.targetAngle = b0.angle + Real.pi)
    (hnn : ∀ f ∈ pre ++ [last], 0 ≤ f.2)
    (hpre : elapsed pre < 2 * Real.pi)
    (hlast : 2 * Real.pi ≤ elapsed (pre ++ [last])) :
    (∀ fs g rest, pre ++ [last] = fs ++ g :: rest →
        (box_run Real.sqrt Real.pi b0 fs).isRotating = true
          ∧ (box_run Real.sqrt Real.pi b0 fs).angle
              ≤ (box_run Real.sqrt Real.pi b0 (fs ++ [g])).angle
          ∧ (box_run Real.sqrt Real.pi b0 (fs ++ [g])).angle ≤ b0.targetAngle)
      ∧ (box_run Real.sqrt Real.pi b0 (pre ++ [last])).angle = b0.targetAngle
      ∧ (box_run Real.sqrt Real.pi b0 (pre ++ [last])).isRotating = false
      ∧ (box_run Real.sqrt Real.pi b0 (pre ++ [last])).timeSinceLastMove = 0 := by
  have hnnpre : ∀ f ∈ pre, 0 ≤ f.2 := fun f hf => hnn f (List.mem_append_left _ hf)
  -- every proper prefix of the run leaves the box rotating, short of the target
  have hinit : ∀ fs t, pre = fs ++ t →
      (box_run Real.sqrt Real.pi b0 fs).isRotating = true
        ∧ (box_run Real.sqrt Real.pi b0 fs).targetAngle = b0.targetAngle
        ∧ (box_run Real.sqrt Real.pi b0 fs).angle = b0.angle + 1 / 2 * elapsed fs
        ∧ b0.angle + 1 / 2 * elapsed fs < b0.targetAngle := by
    intro fs t hsplit
    have hfs : ∀ f ∈ fs, 0 ≤ f.2 :=
      fun f hf => hnnpre f (by rw [hsplit]; exact List.mem_append_left _ hf)
    have ht : ∀ f ∈ t, 0 ≤ f.2 :=
      fun f hf => hnnpre f (by rw [hsplit]; exact List.mem_append_right _ hf)
    have he : elapsed pre = elapsed fs + elapsed t := by rw [hsplit, elapsed_append]
    have htn := elapsed_nonneg t ht
    have hlt : b0.angle + 1 / 2 * elapsed fs < b0.targetAngle := by
      rw [htarget]; linarith
    obtain ⟨h1, h2, h3⟩ := box_run_rotating fs b0 hrot hfs hlt
    exact ⟨h1, h2, h3, hlt⟩
  refine ⟨?_, ?_⟩
  · intro fs g rest hsplit
    have hg : 0 ≤ g.2 := hnn g (by rw [hsplit]; simp)
    have hsplit2 : ∃ t, pre = fs ++ t := by
      rcases List.eq_nil_or_concat rest with hnil | ⟨r, x, hr⟩
      · subst hnil
        exact ⟨[], by rw [List.append_nil]; exact (List.append_inj' hsplit rfl).1⟩
      · subst hr
        refine ⟨g :: r, ?_⟩
        have h2 : pre ++ [last] = (fs ++ g :: r) ++ [x] := by
          rw [hsplit]; simp
        exact (List.append_inj' h2 rfl).1
    obtain ⟨t, ht⟩ := hsplit2
    obtain ⟨h1, h2, h3, h4⟩ := hinit fs t ht
    obtain ⟨hT, hdone, hgo⟩ := box_frame_rotating (box_run Real.sqrt Real.pi b0 fs) g h1
    have hrun : box_run Real.sqrt Real.pi b0 (fs ++ [g])
        = box_frame Real.sqrt Real.pi (box_run Real.sqrt Real.pi b0 fs) g := by
      rw [box_run_append]; rfl
    rw [hrun]
    refine ⟨h1, ?_, ?_⟩
    · by_cases hc : (box_run Real.sqrt Real.pi b0 fs).targetAngle
          ≤ (box_run Real.sqrt Real.pi b0 fs).angle + 1 / 2 * g.2
      · rw [(hdone hc).1, h2, h3]; linarith
      · rw [(hgo (not_le.mp hc)).1]; linarith
    · by_cases hc : (box_run Real.sqrt Real.pi b0 fs).targetAngle
          ≤ (box_run Real.sqrt Real.pi b0 fs).angle + 1 / 2 * g.2
      · rw [(hdone hc).1, h2]
      · rw [(hgo (not_le.mp hc)).1, ← h2]; linarith [not_le.mp hc]
  · obtain ⟨h1, h2, h3, h4⟩ := hinit pre [] (by simp)
    obtain ⟨hT, hdone, _⟩ := box_frame_rotating (box_run Real.sqrt Real.pi b0 pre) last h1
    have hrun : box_run Real.sqrt Real.pi b0 (pre ++ [last])
        = box_frame Real.sqrt Real.pi (box_run Real.sqrt Real.pi b0 pre) last := by
      rw [box_run_append]; rfl
    rw [elapsed_append, elapsed_cons, elapsed_nil] at hlast
    have hc : (box_run Real.sqrt Real.pi b0 pre).targetAngle
        ≤ (box_run Real.sqrt Real.pi b0 pre).angle + 1 / 2 * last.2 := by
      rw [h2, h3, htarget]; linarith
    obtain ⟨ha, hr, hz⟩ := hdone hc
    rw [hrun]
    exact ⟨by rw [ha, h2], hr, hz⟩

/-- Witness of C8: a box rotating from angle 0 to `pi`, two frames of 4
seconds each. -/
theorem rotation_completes_witness :
    (box_run Real.sqrt Real.pi ⟨0, 0 + Real.pi, true, 0⟩
        ([([(⟨0, 0, 0, 0, 5⟩ : Particle ℝ)], 4)] ++ [([⟨0, 0, 0, 0, 5⟩], 4)])).angle
        = 0 + Real.pi
      ∧ (box_run Real.sqrt Real.pi ⟨0, 0 + Real.pi, true, 0⟩
        ([([(⟨0, 0, 0, 0, 5⟩ : Particle ℝ)], 4)] ++ [([⟨0, 0, 0, 0, 5⟩], 4)])).isRotating
        = false
      ∧ (box_run Real.sqrt Real.pi ⟨0, 0 + Real.pi, true, 0⟩
        ([([(⟨0, 0, 0, 0, 5⟩ : Particle ℝ)], 4)] ++ [([⟨0, 0, 0, 0, 5⟩], 4)])).timeSinceLastMove
        = 0 :=
  (rotation_completes ⟨0, 0 + Real.pi, true, 0⟩ [([⟨0, 0, 0, 0, 5⟩], 4)]
    ([⟨0, 0, 0, 0, 5⟩], 4) rfl rfl
    (by intro f hf; simp at hf; subst hf; norm_num)
    (by have h := Real.pi_gt_three; simp [elapsed]; linarith)
    (by have h := Real.pi_le_four; simp [elapsed]; linarith)).2

/-- One frame of a settled box whose timer stays below the wait time. -/
theorem box_frame_settled_wait (b : BoxState ℝ) (f : List (Particle ℝ) × ℝ)
    (hset : b.isRotating = false)
    (hslow : ∀ p ∈ f.1, Real.sqrt (p.vx * p.vx + p.vy * p.vy) < 1)
    (hwait : b.timeSinceLastMove + f.2 < 1) :
    box_frame Real.sqrt Real.pi b f
      = { b with timeSinceLastMove := b.timeSinceLastMove + f.2 } := by
  rw [box_frame_eq, settle_check_slow f.1 b hslow]
  simp only [settle_timer, SETTLED_CHECK_TIME, if_true, ge_iff_le, not_le.mpr hwait,
    false_and, if_false, rotation_step, hset]
  simp

/-- The frame in which the timer of a settled box reaches the wait time. -/
theorem box_frame_settled_start (b : BoxState ℝ) (f : List (Particle ℝ) × ℝ)
    (hset : b.isRotating = false)
    (hslow : ∀ p ∈ f.1, Real.sqrt (p.vx * p.vx + p.vy * p.vy) < 1)
    (hdue : 1 ≤ b.timeSinceLastMove + f.2) :
    box_frame Real.sqrt Real.pi b f
      = rotation_step f.2 { b with timeSinceLastMove := b.timeSinceLastMove + f.2,
                                   isRotating := true, targetAngle := b.angle + Real.pi } := by
  rw [box_frame_eq, settle_check_slow f.1 b hslow]
  simp only [settle_timer, SETTLED_CHECK_TIME, if_true, ge_iff_le, hdue, hset, true_and]

/-- A settled box whose timer stays below the wait time over the whole run
only accumulates the elapsed time. -/
theorem box_run_settled (fs : List (List (Particle ℝ) × ℝ)) :
    ∀ b : BoxState ℝ, b.isRotating = false →
      (∀ f ∈ fs, ∀ p ∈ f.1, Real.sqrt (p.vx * p.vx + p.vy * p.vy) < 1) →
      (∀ f ∈ fs, 0 ≤ f.2) →
      b.timeSinceLastMove + elapsed fs < 1 →
      box_run Real.sqrt Real.pi b fs
        = { b with timeSinceLastMove := b.timeSinceLastMove + elapsed fs } := by
  induction fs with
  | nil =>
    intro b _ _ _ _
    simp [box_run_nil, elapsed_nil]
  | cons f fs ih =>
    intro b hset hslow hnn hlt
    rw [elapsed_cons] at hlt
    have hf := hnn f (List.mem_cons_self f fs)
    have hfs : ∀ g ∈ fs, 0 ≤ g.2 := fun g hg => hnn g (List.mem_cons_of_mem f hg)
    have hrest := elapsed_nonneg fs hfs
    have hw := box_frame_settled_wait b f hset (hslow f (List.mem_cons_self f fs))
      (by linarith)
    have hih := ih { b with timeSinceLastMove := b.timeSinceLastMove + f.2 } hset
      (fun g hg => hslow g (List.mem_cons_of_mem f hg)) hfs (by simp only; linarith)
    rw [box_run_cons, hw, hih, elapsed_cons]
    simp only [add_assoc]

/-- C7, amended: from a settled box (`isRotating = false`,
`timeSinceLastMove = 0`), with every particle slower than 1.0 on every frame
and non-negative frame times, the box stays settled until the first frame in
which the accumulated time reaches 1.0, and at the end of that frame it is
rotating with `targetAngle` equal to the angle before that frame plus `pi`,
provided that frame is shorter than `2 pi` seconds. `pre` are the frames
before that frame, `last` is that frame. -/
theorem settle_then_rotate (b0 : BoxState ℝ) (pre : List (List (Particle ℝ) × ℝ))
    (last : List (Particle ℝ) × ℝ)
    (hset : b0.isRotating = false) (htimer : b0.timeSinceLastMove = 0)
    (hslow : ∀ f ∈ pre ++ [last], ∀ p ∈ f.1, Real.sqrt (p.vx * p.vx + p.vy * p.vy) < 1)
    (hnn : ∀ f ∈ pre ++ [last], 0 ≤ f.2)
    (hpre : elapsed pre < 1)
    (hlast : 1 ≤ elapsed (pre ++ [last]))
    (hshort : last.2 < 2 * Real.pi) :
    (box_run Real.sqrt Real.pi b0 pre).isRotating = false
      ∧ (box_run Real.sqrt Real.pi b0 (pre ++ [last])).isRotating = true
      ∧ (box_run Real.sqrt Real.pi b0 (pre ++ [last])).targetAngle
          = (box_run Real.sqrt Real.pi b0 pre).angle + Real.pi := by
  have hpre_run := box_run_settled pre b0 hset
    (fun f hf => hslow f (List.mem_append_left _ hf))
    (fun f hf => hnn f (List.mem_append_left _ hf))
    (by rw [htimer]; linarith)
  have hrun : box_run Real.sqrt Real.pi b0 (pre ++ [last])
      = box_frame Real.sqrt Real.pi (box_run Real.sqrt Real.pi b0 pre) last := by
    rw [box_run_append]; rfl
  rw [elapsed_append, elapsed_cons, elapsed_nil] at hlast
  have hstart := box_frame_settled_start (box_run Real.sqrt Real.pi b0 pre) last
    (by rw [hpre_run]; exact hset)
    (hslow last (by simp))
    (by rw [hpre_run]; simp only; rw [htimer]; linarith)
  rw [hrun, hstart, hpre_run]
  refine ⟨hset, ?_, ?_⟩
  · simp only [rotation_step, ROTATION_SPEED, if_true, ge_iff_le]
    have hc : ¬ (b0.angle + Real.pi ≤ b0.angle + 1 / 2 * last.2) := by
      intro h; linarith
    rw [if_neg hc]
  · simp only [rotation_step, ROTATION_SPEED, if_true, ge_iff_le]
    have hc : ¬ (b0.angle + Real.pi ≤ b0.angle + 1 / 2 * last.2) := by
      intro h; linarith
    rw [if_neg hc]

/-- Witness of C7 (amended): one particle at rest, two frames of half a
second each. -/
theorem settle_then_rotate_witness :
    (box_run Real.sqrt Real.pi ⟨0, 0, false, 0⟩
        ([([(⟨0, 0, 0, 0, 5⟩ : Particle ℝ)], 1 / 2)] ++ [([⟨0, 0, 0, 0, 5⟩], 1 / 2)])).isRotating
        = true
      ∧ (box_run Real.sqrt Real.pi ⟨0, 0, false, 0⟩
        ([([(⟨0, 0, 0, 0, 5⟩ : Particle ℝ)], 1 / 2)] ++ [([⟨0, 0, 0, 0, 5⟩], 1 / 2)])).targetAngle
        = (box_run Real.sqrt Real.pi ⟨0, 0, false, 0⟩
            [([(⟨0, 0, 0, 0, 5⟩ : Particle ℝ)], 1 / 2)]).angle + Real.pi :=
  (settle_then_rotate ⟨0, 0, false, 0⟩ [([⟨0, 0, 0, 0, 5⟩], 1 / 2)]
    ([⟨0, 0, 0, 0, 5⟩], 1 / 2) rfl rfl
    (by intro f hf p hp; simp at hf; subst hf; simp at hp; subst hp; simp)
    (by intro f hf; simp at hf; subst hf; norm_num)
    (by simp [elapsed]; norm_num)
    (by simp [elapsed]; norm_num)
    (by have h := Real.pi_gt_three; simp only; linarith)).2

/-- C7 as stated fails for a long frame: one particle at rest and a single
frame of 8 seconds. The timer reaches 1.0 in that frame, rotation starts with
target `0 + pi`, and the stepper of the same frame advances the angle by 4,
past the target: at the end of the frame the box is not rotating. -/
theorem settle_then_rotate_counterexample :
    elapsed ([] : List (List (Particle ℝ) × ℝ)) < 1
      ∧ 1 ≤ elapsed ([] ++ [([(⟨0, 0, 0, 0, 5⟩ : Particle ℝ)], (8 : ℝ))])
      ∧ Real.sqrt ((0 : ℝ) * 0 + 0 * 0) < 1
      ∧ (box_run Real.sqrt Real.pi ⟨0, 0, false, 0⟩
          ([] ++ [([(⟨0, 0, 0, 0, 5⟩ : Particle ℝ)], (8 : ℝ))])).isRotating = false := by
  refine ⟨by simp [elapsed], by simp [elapsed], by simp, ?_⟩
  have hstart := box_frame_settled_start ⟨0, 0, false, 0⟩
    ([(⟨0, 0, 0, 0, 5⟩ : Particle ℝ)], (8 : ℝ)) rfl
    (by intro p hp; simp at hp; subst hp; simp) (by norm_num)
  have hrun : box_run Real.sqrt Real.pi ⟨0, 0, false, 0⟩
      ([] ++ [([(⟨0, 0, 0, 0, 5⟩ : Particle ℝ)], (8 : ℝ))])
      = box_frame Real.sqrt Real.pi ⟨0, 0, false, 0⟩ ([⟨0, 0, 0, 0, 5⟩], 8) := rfl
  rw [hrun, hstart]
  simp only [rotation_step, ROTATION_SPEED, if_true, ge_iff_le]
  have hc : (0 : ℝ) + Real.pi ≤ 0 + 1 / 2 * 8 := by
    have h := Real.pi_le_four
    linarith
  rw [if_pos hc]

/-! ### What the loops write -/

theorem set_of_getElem? {β : Type} (l : List β) (i : Nat) (a : β) (h : l[i]? = some a) :
    l.set i a = l := by
  apply List.ext_getElem?
  intro m
  rw [List.getElem?_set]
  by_cases him : i = m
  · subst him
    have hlt : i < l.length := (List.getElem?_eq_some_iff.mp h).1
    simp [hlt, h]
  · simp [him]

theorem readAt_ok {α : Type} (ps : List (Particle α)) (i : Nat) (p : Particle α)
    (h : ps[i]? = some p) : readAt ps i = Except.ok p := by
  simp [readAt, h]

theorem readAt_of_lt {α : Type} (ps : List (Particle α)) (i : Nat) (h : i < ps.length) :
    ∃ p, ps[i]? = some p ∧ readAt ps i = Except.ok p :=
  ⟨ps[i], List.getElem?_eq_getElem h, readAt_ok ps i _ (List.getElem?_eq_getElem h)⟩

/-- The pair handler can only fail on a zero divisor. -/
theorem collide_pair_fault {α : Type} [LinearOrderedField α] (sqrt : α → α)
    (pi pj : Particle α) (e : Fault) (h : collide_pair sqrt pi pj = Except.error e) :
    e = Fault.zeroDivisor := by
  cases e with
  | zeroDivisor => rfl
  | outOfRange =>
    exfalso
    unfold collide_pair at h
    simp only [fdiv, bind, Except.bind, pure, Except.pure] at h
    split_ifs at h <;> simp at h
    split_ifs at h

/-- One inner iteration keeps the length of the array and writes only the
entries `i` and `j`. -/
theorem inner_body_frame {α : Type} [LinearOrderedField α] (sqrt : α → α) (i j : Nat)
    (ps qs : List (Particle α)) (h : inner_body sqrt i ps j = Except.ok qs) :
    qs.length = ps.length ∧ ∀ m, m ≠ i → m ≠ j → qs[m]? = ps[m]? := by
  unfold inner_body at h
  cases hi : readAt ps i with
  | error e => rw [hi] at h; simp [bind, Except.bind] at h
  | ok a =>
    cases hj : readAt ps j with
    | error e => rw [hi, hj] at h; simp [bind, Except.bind] at h
    | ok b =>
      cases hc : collide_pair sqrt a b with
      | error e => rw [hi, hj] at h; simp [bind, Except.bind, hc] at h
      | ok r =>
        rw [hi, hj] at h
        simp only [bind, Except.bind, hc, pure, Except.pure, Except.ok.injEq] at h
        subst h
        refine ⟨by simp, ?_⟩
        intro m hmi hmj
        rw [List.getElem?_set_ne (Ne.symm hmj), List.getElem?_set_ne (Ne.symm hmi)]

/-- One inner iteration on valid indices can only fail on a zero divisor. -/
theorem inner_body_fault {α : Type} [LinearOrderedField α] (sqrt : α → α) (i j : Nat)
    (ps : List (Particle α)) (e : Fault) (hi : i < ps.length) (hj : j < ps.length)
    (h : inner_body sqrt i ps j = Except.error e) : e = Fault.zeroDivisor := by
  obtain ⟨a, _, ha⟩ := readAt_of_lt ps i hi
  obtain ⟨b, _, hb⟩ := readAt_of_lt ps j hj
  unfold inner_body at h
  rw [ha, hb] at h
  cases hc : collide_pair sqrt a b with
  | error e2 =>
    simp only [bind, Except.bind, hc, Except.error.injEq] at h
    subst h
    exact collide_pair_fault sqrt a b e2 hc
  | ok r => simp [bind, Except.bind, hc, pure, Except.pure] at h

/-- The inner loop keeps the length and writes only entry `i` and the entries
it iterates over. -/
theorem inner_loop_frame {α : Type} [LinearOrderedField α] (sqrt : α → α) (i : Nat)
    (js : List Nat) :
    ∀ ps qs : List (Particle α), js.foldlM (inner_body sqrt i) ps = Except.ok qs →
      qs.length = ps.length ∧ ∀ m, m ≠ i → m ∉ js → qs[m]? = ps[m]? := by
  induction js with
  | nil =>
    intro ps qs h
    simp only [List.foldlM, pure, Except.pure, Except.ok.injEq] at h
    subst h
    exact ⟨rfl, fun _ _ _ => rfl⟩
  | cons j js ih =>
    intro ps qs h
    rw [List.foldlM_cons] at h
    cases hb : inner_body sqrt i ps j with
    | error e => rw [hb] at h; simp [bind, Except.bind] at h
    | ok ps1 =>
      rw [hb] at h
      simp only [bind, Except.bind] at h
      obtain ⟨hl1, hf1⟩ := inner_body_frame sqrt i j ps ps1 hb
      obtain ⟨hl2, hf2⟩ := ih ps1 qs h
      refine ⟨hl2.trans hl1, ?_⟩
      intro m hmi hmjs
      rw [List.mem_cons, not_or] at hmjs
      rw [hf2 m hmi hmjs.2, hf1 m hmi hmjs.1]

/-- The inner loop over valid indices can only fail on a zero divisor. -/
theorem inner_loop_fault {α : Type} [LinearOrderedField α] (sqrt : α → α) (i : Nat)
    (e : Fault) (js : List Nat) :
    ∀ ps : List (Particle α), i < ps.length → (∀ j ∈ js, j < ps.length) →
      js.foldlM (inner_body sqrt i) ps = Except.error e → e = Fault.zeroDivisor := by
  induction js with
  | nil =>
    intro ps _ _ h
    simp [List.foldlM, pure, Except.pure] at h
  | cons j js ih =>
    intro ps hi hjs h
    rw [List.foldlM_cons] at h
    cases hb : inner_body sqrt i ps j with
    | error e2 =>
      rw [hb] at h
      simp only [bind, Except.bind, Except.error.injEq] at h
      subst h
      exact inner_body_fault sqrt i j ps e2 hi (hjs j (List.mem_cons_self j js)) hb
    | ok ps1 =>
      rw [hb] at h
      simp only [bind, Except.bind] at h
      obtain ⟨hl1, _⟩ := inner_body_frame sqrt i j ps ps1 hb
      exact ih ps1 (by rw [hl1]; exact hi)
        (fun k hk => by rw [hl1]; exact hjs k (List.mem_cons_of_mem j hk)) h

/-- An inner loop all of whose pairs the handler leaves as they are returns
the array unchanged. -/
theorem inner_loop_noop {α : Type} [LinearOrderedField α] (sqrt : α → α) (i : Nat)
    (s : List (Particle α)) (c : Particle α) (hc : s[i]? = some c) (js : List Nat)
    (hjs : ∀ j ∈ js, ∃ pj, s[j]? = some pj ∧ collide_pair sqrt c pj = Except.ok (c, pj)) :
    js.foldlM (inner_body sqrt i) s = Except.ok s := by
  induction js with
  | nil => rfl
  | cons j js ih =>
    obtain ⟨pj, hpj, hpair⟩ := hjs j (List.mem_cons_self j js)
    have hb : inner_body sqrt i s j = Except.ok s := by
      unfold inner_body
      rw [readAt_ok s i c hc, readAt_ok s j pj hpj]
      simp only [bind, Except.bind, hpair, pure, Except.pure]
      rw [set_of_getElem? s i c hc, set_of_getElem? s j pj hpj]
    rw [List.foldlM_cons, hb]
    simp only [bind, Except.bind]
    exact ih (fun k hk => hjs k (List.mem_cons_of_mem j hk))

/-- One outer iteration keeps the length and leaves the entries below its
index as they are. -/
theorem outer_body_frame {α : Type} [LinearOrderedField α] (cos sin sqrt : α → α)
    (n : Nat) (dt : α) (width height : Int) (box : BoxState α) (k : Nat)
    (ps qs : List (Particle α))
    (h : outer_body cos sin sqrt n dt width height box ps k = Except.ok qs) :
    qs.length = ps.length ∧ ∀ m, m < k → qs[m]? = ps[m]? := by
  unfold outer_body at h
  cases hr : readAt ps k with
  | error e => rw [hr] at h; simp [bind, Except.bind] at h
  | ok p =>
    rw [hr] at h
    simp only [bind, Except.bind] at h
    obtain ⟨hl, hf⟩ := inner_loop_frame sqrt k _ _ qs h
    refine ⟨by rw [hl, List.length_set], ?_⟩
    intro m hm
    rw [hf m (Nat.ne_of_lt hm) (by rw [List.mem_range'_1]; omega),
      List.getElem?_set_ne (Nat.ne_of_gt hm)]

/-- One outer iteration inside the array can only fail on a zero divisor. -/
theorem outer_body_fault {α : Type} [LinearOrderedField α] (cos sin sqrt : α → α)
    (n : Nat) (dt : α) (width height : Int) (box : BoxState α) (k : Nat)
    (ps : List (Particle α)) (e : Fault) (hk : k < ps.length) (hn : n ≤ ps.length)
    (h : outer_body cos sin sqrt n dt width height box ps k = Except.error e) :
    e = Fault.zeroDivisor := by
  obtain ⟨p, _, hp⟩ := readAt_of_lt ps k hk
  unfold outer_body at h
  rw [hp] at h
  simp only [bind, Except.bind] at h
  refine inner_loop_fault sqrt k e _ _ (by rw [List.length_set]; exact hk) ?_ h
  intro j hj
  rw [List.mem_range'_1] at hj
  rw [List.length_set]
  omega

/-- An outer iteration whose inner loop meets only pairs the handler leaves as
they are commits the boundary phase of its particle and nothing else. -/
theorem outer_body_unhandled {α : Type} [LinearOrderedField α] (cos sin sqrt : α → α)
    (n : Nat) (dt : α) (width height : Int) (box : BoxState α) (i : Nat)
    (ps : List (Particle α)) (p : Particle α) (hn : n ≤ ps.length) (hp : ps[i]? = some p)
    (hpairs : ∀ j pj, i < j → ps[j]? = some pj →
      collide_pair sqrt (step_particle cos sin sqrt p dt width height box.angle) pj
        = Except.ok (step_particle cos sin sqrt p dt width height box.angle, pj)) :
    outer_body cos sin sqrt n dt width height box ps i
      = Except.ok (ps.set i (step_particle cos sin sqrt p dt width height box.angle)) := by
  have hi : i < ps.length := (List.getElem?_eq_some_iff.mp hp).1
  unfold outer_body
  rw [readAt_ok ps i p hp]
  simp only [bind, Except.bind]
  apply inner_loop_noop sqrt i _ _ (List.getElem?_set_self hi)
  intro j hj
  rw [List.mem_range'_1] at hj
  have hjl : j < ps.length := by omega
  refine ⟨ps[j], ?_, hpairs j ps[j] (by omega) (List.getElem?_eq_getElem hjl)⟩
  rw [List.getElem?_set_ne (by omega), List.getElem?_eq_getElem hjl]

/-- A stretch of outer iterations starting at index `a` keeps the length and
leaves the entries below `a` as they are. -/
theorem outer_loop_frame {α : Type} [LinearOrderedField α] (cos sin sqrt : α → α)
    (n : Nat) (dt : α) (width height : Int) (box : BoxState α) (len : Nat) :
    ∀ (a : Nat) (ps qs : List (Particle α)),
      (List.range' a len).foldlM (outer_body cos sin sqrt n dt width height box) ps
        = Except.ok qs →
      qs.length = ps.length ∧ ∀ m, m < a → qs[m]? = ps[m]? := by
  induction len with
  | zero =>
    intro a ps qs h
    simp only [List.range'_zero, List.foldlM, pure, Except.pure, Except.ok.injEq] at h
    subst h
    exact ⟨rfl, fun _ _ => rfl⟩
  | succ len ih =>
    intro a ps qs h
    rw [List.range'_succ, List.foldlM_cons] at h
    cases hb : outer_body cos sin sqrt n dt width height box ps a with
    | error e => rw [hb] at h; simp [bind, Except.bind] at h
    | ok ps1 =>
      rw [hb] at h
      simp only [bind, Except.bind] at h
      obtain ⟨hl1, hf1⟩ := outer_body_frame cos sin sqrt n dt width height box a ps ps1 hb
      obtain ⟨hl2, hf2⟩ := ih (a + 1) ps1 qs h
      refine ⟨hl2.trans hl1, ?_⟩
      intro m hm
      rw [hf2 m (by omega), hf1 m hm]

/-- A stretch of outer iterations inside the array can only fail on a zero
divisor. -/
theorem outer_loop_fault {α : Type} [LinearOrderedField α] (cos sin sqrt : α → α)
    (n : Nat) (dt : α) (width height : Int) (box : BoxState α) (e : Fault) (len : Nat) :
    ∀ (a : Nat) (ps : List (Particle α)), a + len ≤ ps.length → n ≤ ps.length →
      (List.range' a len).foldlM (outer_body cos sin sqrt n dt width height box) ps
        = Except.error e →
      e = Fault.zeroDivisor := by
  induction len with
  | zero =>
    intro a ps _ _ h
    simp [List.foldlM, pure, Except.pure] at h
  | succ len ih =>
    intro a ps ha hn h
    rw [List.range'_succ, List.foldlM_cons] at h
    cases hb : outer_body cos sin sqrt n dt width height box ps a with
    | error e2 =>
      rw [hb] at h
      simp only [bind, Except.bind, Except.error.injEq] at h
      subst h
      exact outer_body_fault cos sin sqrt n dt width height box a ps e2 (by omega) hn hb
    | ok ps1 =>
      rw [hb] at h
      simp only [bind, Except.bind] at h
      obtain ⟨hl1, _⟩ := outer_body_frame cos sin sqrt n dt width height box a ps ps1 hb
      exact ih (a + 1) ps1 (by rw [hl1]; omega) (by rw [hl1]; exact hn) h

/-- A run that returns passes through every outer iteration: the array before
iteration `i`, the array after it, and the rest of the run. -/
theorem update_particles_split {α : Type} [LinearOrderedField α] (cos sin sqrt : α → α)
    (particles ps : List (Particle α)) (n : Nat) (dt : α) (width height : Int)
    (box : BoxState α) (i : Nat) (hi : i < n)
    (hrun : update_particles cos sin sqrt particles n dt width height box = Except.ok ps) :
    ∃ before after : List (Particle α),
      update_prefix cos sin sqrt particles n dt width height box i = Except.ok before
        ∧ outer_body cos sin sqrt n dt width height box before i = Except.ok after
        ∧ (List.range' (i + 1) (n - (i + 1))).foldlM
            (outer_body cos sin sqrt n dt width height box) after = Except.ok ps := by
  unfold update_particles at hrun
  unfold update_prefix
  have hsplit : List.range n = List.range i ++ (i :: List.range' (i + 1) (n - (i + 1))) := by
    rw [List.range_eq_range', List.range_eq_range', ← List.range'_succ]
    have h := List.range'_append_1 0 i (n - (i + 1) + 1)
    rw [Nat.zero_add] at h
    rw [h]
    congr 1
    omega
  rw [hsplit, List.foldlM_append] at hrun
  cases hpre : List.foldlM (outer_body cos sin sqrt n dt width height box) particles
      (List.range i) with
  | error e => rw [hpre] at hrun; simp [bind, Except.bind] at hrun
  | ok before =>
    rw [hpre] at hrun
    simp only [bind, Except.bind, List.foldlM_cons] at hrun
    cases hb : outer_body cos sin sqrt n dt width height box before i with
    | error e => rw [hb] at hrun; simp at hrun
    | ok after =>
      rw [hb] at hrun
      exact ⟨before, after, rfl, hb, hrun⟩

/-- A run over the whole array can only fail on a zero divisor: every index
it reads lies inside the array. -/
theorem update_particles_fault {α : Type} [LinearOrderedField α] (cos sin sqrt : α → α)
    (particles : List (Particle α)) (dt : α) (width height : Int) (box : BoxState α)
    (e : Fault)
    (h : update_particles cos sin sqrt particles particles.length dt width height box
      = Except.error e) :
    e = Fault.zeroDivisor := by
  unfold update_particles at h
  rw [List.range_eq_range'] at h
  exact outer_loop_fault cos sin sqrt particles.length dt width height box e
    particles.length 0 particles (by omega) (le_refl _) h

/-- The pair handler leaves a pair that does not overlap as it is. -/
theorem collide_pair_apart {α : Type} [LinearOrderedField α] (sqrt : α → α)
    (pi pj : Particle α) (h : minDistSq pi pj ≤ centerDistSq pi pj) :
    collide_pair sqrt pi pj = Except.ok (pi, pj) := by
  simp only [centerDistSq, minDistSq] at h
  unfold collide_pair
  simp only [not_lt.mpr h, if_false]
  rfl

/-- The pair handler leaves an unhandled pair as it is. -/
theorem collide_pair_unhandled (pi pj : Particle ℝ) (h : pairUnhandled Real.sqrt pi pj) :
    collide_pair Real.sqrt pi pj = Except.ok (pi, pj) := by
  rcases h with h | ⟨hne, hsep⟩
  · exact collide_pair_apart Real.sqrt pi pj h
  · by_cases hov : centerDistSq pi pj < minDistSq pi pj
    · exact collide_pair_separating pi pj hov hne hsep
    · exact collide_pair_apart Real.sqrt pi pj (not_lt.mp hov)

/-- C2, amended: with `min(width, height) ≥ 40`,
(1) the value the boundary phase commits for a particle lies within the box in
box-local space;
(2) a run of `update_particles` over the whole array can only fail by dividing
by a zero distance;
(3) when the run returns, every particle `i` whose inner loop handles no pair
(each particle `j > i` of the array as it stands before outer iteration `i`
either does not overlap the committed particle `i` or has a distinct center
and is separating from it) is, after the return, exactly its committed value
and lies within the box;
(4) when the run returns, the last particle of a non-empty array lies within
the box.
A particle that a positional correction moved after its commit is not clamped
again. -/
theorem containment_at_commit (width height : Int) (hmin : 40 ≤ min width height)
    (dt : ℝ) (box : BoxState ℝ) :
    (∀ p : Particle ℝ, inBox (halfBoxSize Real.sqrt width height)
        (local_position Real.cos Real.sin
          (step_particle Real.cos Real.sin Real.sqrt p dt width height box.angle)
          width height box.angle))
      ∧ (∀ (particles : List (Particle ℝ)) (e : Fault),
          update_particles Real.cos Real.sin Real.sqrt particles particles.length dt
            width height box = Except.error e →
          e = Fault.zeroDivisor)
      ∧ (∀ (particles ps : List (Particle ℝ)) (i : Nat), i < particles.length →
          update_particles Real.cos Real.sin Real.sqrt particles particles.length dt
            width height box = Except.ok ps →
          ∃ (before : List (Particle ℝ)) (p : Particle ℝ),
            update_prefix Real.cos Real.sin Real.sqrt particles particles.length dt
                width height box i = Except.ok before
              ∧ before[i]? = some p
              ∧ ((∀ j pj, i < j → before[j]? = some pj →
                    pairUnhandled Real.sqrt
                      (step_particle Real.cos Real.sin Real.sqrt p dt width height box.angle)
                      pj) →
                  ∃ q, ps[i]? = some q
                    ∧ q = step_particle Real.cos Real.sin Real.sqrt p dt width height
                        box.angle
                    ∧ inBox (halfBoxSize Real.sqrt width height)
                        (local_position Real.cos Real.sin q width height box.angle)))
      ∧ (∀ particles ps : List (Particle ℝ), particles ≠ [] →
          update_particles Real.cos Real.sin Real.sqrt particles particles.length dt
            width height box = Except.ok ps →
          ∃ q, ps[particles.length - 1]? = some q
            ∧ inBox (halfBoxSize Real.sqrt width height)
                (local_position Real.cos Real.sin q width height box.angle)) := by
  have hA : ∀ p : Particle ℝ, inBox (halfBoxSize Real.sqrt width height)
      (local_position Real.cos Real.sin
        (step_particle Real.cos Real.sin Real.sqrt p dt width height box.angle)
        width height box.angle) := by
    intro p
    rw [local_position_step_particle]
    exact boundary_collisions_inBox _ _ _ _ _ (halfBoxSize_nonneg width height hmin)
  refine ⟨hA, ?_, ?_, ?_⟩
  · intro particles e h
    exact update_particles_fault Real.cos Real.sin Real.sqrt particles dt width height box e h
  · intro particles ps i hi hrun
    obtain ⟨before, after, hpre, hbody, hrest⟩ :=
      update_particles_split Real.cos Real.sin Real.sqrt particles ps particles.length dt
        width height box i hi hrun
    have hlen : before.length = particles.length := by
      unfold update_prefix at hpre
      rw [List.range_eq_range'] at hpre
      exact (outer_loop_frame Real.cos Real.sin Real.sqrt particles.length dt width height
        box i 0 particles before hpre).1
    have hib : i < before.length := by rw [hlen]; exact hi
    refine ⟨before, before[i], hpre, List.getElem?_eq_getElem hib, ?_⟩
    intro hun
    have hbody2 := outer_body_unhandled Real.cos Real.sin Real.sqrt particles.length dt
      width height box i before before[i] (le_of_eq hlen.symm)
      (List.getElem?_eq_getElem hib)
      (fun j pj hij hj => collide_pair_unhandled _ _ (hun j pj hij hj))
    rw [hbody] at hbody2
    have hafter : after = before.set i
        (step_particle Real.cos Real.sin Real.sqrt before[i] dt width height box.angle) :=
      Except.ok.inj hbody2
    have hfrozen := (outer_loop_frame Real.cos Real.sin Real.sqrt particles.length dt
      width height box _ (i + 1) after ps hrest).2 i (Nat.lt_succ_self i)
    refine ⟨_, ?_, rfl, hA _⟩
    rw [hfrozen, hafter, List.getElem?_set_self hib]
  · intro particles ps hne hrun
    obtain ⟨m, hm⟩ : ∃ m, particles.length = m + 1 :=
      Nat.exists_eq_succ_of_ne_zero (fun h => hne (List.length_eq_zero.mp h))
    rw [hm] at hrun
    obtain ⟨ps1, p, hp, hps⟩ :=
      update_particles_last Real.cos Real.sin Real.sqrt particles ps m dt width height box hrun
    have hml : m < ps1.length := (List.getElem?_eq_some_iff.mp hp).1
    refine ⟨_, ?_, hA p⟩
    rw [hm, Nat.add_sub_cancel, hps, List.getElem?_set_self hml]

/-- Witness of C2 (amended): an 800 x 600 viewport, an unrotated box, half a
second, and two particles of radius 5 at rest at `(700, 295)` and
`(300, 300)`. Particle 0 is clamped to the right edge, about 298 away from
particle 1: its inner loop handles no pair, the run returns, and both
particles lie within the box. -/
theorem containment_at_commit_witness :
    ∃ q0 q1, update_particles Real.cos Real.sin Real.sqrt
          [(⟨700, 295, 0, 0, 5⟩ : Particle ℝ), ⟨300, 300, 0, 0, 5⟩] 2 (1 / 2) 800 600
          ⟨0, 0, false, 0⟩ = Except.ok [q0, q1]
      ∧ inBox (halfBoxSize Real.sqrt 800 600)
          (local_position Real.cos Real.sin q0 800 600 0)
      ∧ inBox (halfBoxSize Real.sqrt 800 600)
          (local_position Real.cos Real.sin q1 800 600 0) := by
  obtain ⟨hlo, hhi⟩ := halfBoxSize_800_600_bounds
  have hfar : pairUnhandled Real.sqrt
      (step_particle Real.cos Real.sin Real.sqrt (⟨700, 295, 0, 0, 5⟩ : Particle ℝ) (1 / 2)
        800 600 0) ⟨300, 300, 0, 0, 5⟩ := by
    left
    rw [step_particle_sample]
    simp only [centerDistSq, minDistSq]
    nlinarith
  have hrun := update_particles_two_ok Real.cos Real.sin Real.sqrt
    (⟨700, 295, 0, 0, 5⟩ : Particle ℝ) ⟨300, 300, 0, 0, 5⟩ _ _ (1 / 2) 800 600
    ⟨0, 0, false, 0⟩ (collide_pair_unhandled _ _ hfar)
  obtain ⟨_, _, hthird, hlast⟩ :=
    containment_at_commit 800 600 (by decide) (1 / 2) ⟨0, 0, false, 0⟩
  obtain ⟨before, p, hpre, hp, himp⟩ := hthird
    [(⟨700, 295, 0, 0, 5⟩ : Particle ℝ), ⟨300, 300, 0, 0, 5⟩] _ 0 (by simp) hrun
  have hb : before = [(⟨700, 295, 0, 0, 5⟩ : Particle ℝ), ⟨300, 300, 0, 0, 5⟩] := by
    have h0 : update_prefix Real.cos Real.sin Real.sqrt
        [(⟨700, 295, 0, 0, 5⟩ : Particle ℝ), ⟨300, 300, 0, 0, 5⟩]
        [(⟨700, 295, 0, 0, 5⟩ : Particle ℝ), ⟨300, 300, 0, 0, 5⟩].length (1 / 2) 800 600
        ⟨0, 0, false, 0⟩ 0
        = Except.ok [(⟨700, 295, 0, 0, 5⟩ : Particle ℝ), ⟨300, 300, 0, 0, 5⟩] := rfl
    rw [h0] at hpre
    exact (Except.ok.inj hpre).symm
  subst hb
  have hp0 : p = ⟨700, 295, 0, 0, 5⟩ := by
    simp only [List.getElem?_cons_zero, Option.some.injEq] at hp
    exact hp.symm
  subst hp0
  obtain ⟨q, hq, _, hin0⟩ := himp (by
    intro j pj hij hj
    match j, hij, hj with
    | 1, _, hj =>
      simp only [List.getElem?_cons_succ, List.getElem?_cons_zero, Option.some.injEq] at hj
      subst hj
      exact hfar
    | (k + 2), _, hj => simp at hj)
  simp only [List.getElem?_cons_zero, Option.some.injEq] at hq
  obtain ⟨q1, hq1, hin1⟩ := hlast
    [(⟨700, 295, 0, 0, 5⟩ : Particle ℝ), ⟨300, 300, 0, 0, 5⟩] _ (by simp) hrun
  simp only [List.length_cons, List.length_nil, Nat.zero_add, Nat.add_sub_cancel,
    List.getElem?_cons_succ, List.getElem?_cons_zero, Option.some.injEq] at hq1
  exact ⟨_, _, hrun, hq ▸ hin0, hq1 ▸ hin1⟩

end ParticleSim
